import Mathlib

/-!
Verification development for the surf-cli network-capture store and workflow
engine.  The definitions below are shallow embeddings of the JavaScript
source: the network storage module (requests.jsonl log, content-addressed
body files, TTL/size cleanup, filtered queries) and the `do` workflow
executor (variable substitution, repeat/each loops, auto-wait).

Modelling conventions, stated once:
* Machine numbers are modelled as `Nat`/`Int`; the one floating-point
  computation in the source (the multiplicative size re-estimate inside
  `cleanup`) is modelled as an exact unreduced fraction `SizeEst`, and every
  concrete instance evaluated in this file uses values on which IEEE
  doubles are exact.
* `Date.now() - x > k` on possibly-larger `x` is modelled with truncated
  `Nat` subtraction, which agrees with the JS comparison because a negative
  JS difference and a truncated-to-zero difference are both `≤ k`.
* Filesystem state is explicit: the log is `none` when `requests.jsonl`
  does not exist and otherwise the list of its well-formed JSON lines (each
  entry carrying `lineBytes`, the byte length of its serialized line); the
  bodies directory is a list of (filename, size) or (filename, content)
  pairs.
* Platform library functions that are not part of this repository are taken
  as parameters: `hash` stands for crypto sha256-hex-prefix, `gOrigin` for
  WHATWG `new URL(u).origin` (returning `none` when the constructor throws),
  `rTest` for the RegExp engine (`none` when the regex constructor throws),
  and `parse` for `JSON.parse` (`none` when it throws).
* String case mapping is ASCII, and the glob branch of the URL pattern
  matcher is modelled for patterns whose characters other than `*` are
  regex-neutral or escaped by the source (all except `?`), which is the
  class the source's escape-then-`.*` construction handles literally.
-/

/-! ## Network store: data model -/

/-- One well-formed line of `requests.jsonl`.  `lineBytes` is the byte
length of the serialized line including its newline. -/
structure NetEntry where
  id : String
  timestamp : Nat
  url : String
  method : String
  status : Int
  contentType : Option String
  respContentType : Option String
  requestBodyHash : Option String
  responseBodyHash : Option String
  lineBytes : Nat
deriving Repr, DecidableEq

/-- On-disk state of the capture store: `requests.jsonl` (absent when
`log = none`, otherwise its entries in file order), the bodies directory as
(filename, size) pairs, and the `.meta` content. -/
structure StoreState where
  log : Option (List NetEntry)
  bodies : List (String × Nat)
  lastCleanup : Nat
deriving Repr, DecidableEq

/-- The entries `readEntriesSync` sees: the file's lines, or `[]` when the
file does not exist (the source returns `[]` in that case). -/
def StoreState.entries (s : StoreState) : List NetEntry :=
  s.log.getD []

def DEFAULT_TTL : Nat := 24 * 60 * 60 * 1000

def DEFAULT_MAX_SIZE : Nat := 200 * 1024 * 1024

def logSize (s : StoreState) : Nat :=
  (s.entries.map (fun e => e.lineBytes)).sum

def bodiesSize (s : StoreState) : Nat :=
  (s.bodies.map (fun b => b.2)).sum

def totalDiskSize (s : StoreState) : Nat :=
  logSize s + bodiesSize s

/-! ## Network store: cleanup -/

/-- Stable insertion of an entry by timestamp (models the stable
`entries.sort((a, b) => a.timestamp - b.timestamp)`). -/
def insertTS (e : NetEntry) : List NetEntry → List NetEntry
  | [] => [e]
  | x :: xs => if x.timestamp ≤ e.timestamp then x :: insertTS e xs else e :: x :: xs

def sortTS : List NetEntry → List NetEntry
  | [] => []
  | e :: es => insertTS e (sortTS es)

/-- The running size estimate of the eviction loop, as the exact fraction
`num / den` (the source holds the same rational value in a double; all
instances evaluated in this file are exact in doubles). -/
structure SizeEst where
  num : Nat
  den : Nat
deriving Repr, DecidableEq

/-- `totalSize ≤ maxSize` on the fraction. -/
def estLe (t : SizeEst) (maxSize : Nat) : Bool :=
  t.num ≤ maxSize * t.den

/-- The `while (entries.length > 0 && totalSize > maxSize)` loop of
`cleanup`: shift the oldest entry and scale the size estimate by
`entries.length / (entries.length + 1)` (the source's rough estimate). -/
def evictOldest : List NetEntry → SizeEst → Nat → List NetEntry × SizeEst
  | [], total, _ => ([], total)
  | e :: rest, total, maxSize =>
      if estLe total maxSize then (e :: rest, total)
      else evictOldest rest ⟨total.num * rest.length, total.den * (rest.length + 1)⟩ maxSize

/-- Body-file names referenced by one entry (`referencedHashes` adds
`hash.req` / `hash.res` under a JS truthiness guard on the hash). -/
def entryRefNames (e : NetEntry) : List String :=
  (match e.requestBodyHash with
   | some h => if h = "" then [] else [h ++ ".req"]
   | none => []) ++
  (match e.responseBodyHash with
   | some h => if h = "" then [] else [h ++ ".res"]
   | none => [])

def referencedNames (entries : List NetEntry) : List String :=
  entries.flatMap entryRefNames

/-- Steps 1-2 of `cleanup`: TTL filter (`timestamp >= cutoffTime` with
`cutoffTime = now - ttl`), then the size-eviction loop guarded by
`totalSize > maxSize && entries.length > 0`.  Returns the surviving entries
and the final internal size estimate. -/
def cleanupSized (s : StoreState) (now ttl maxSize : Nat) : List NetEntry × SizeEst :=
  let entries1 := s.entries.filter (fun e => decide (now - ttl ≤ e.timestamp))
  let totalSize0 : SizeEst := ⟨totalDiskSize s, 1⟩
  if maxSize < totalDiskSize s ∧ entries1 ≠ [] then
    evictOldest (sortTS entries1) totalSize0 maxSize
  else (entries1, totalSize0)

structure CleanupResult where
  deletedEntries : Nat
  deletedBodies : Nat
  freedBytes : Nat
  remainingEntries : Option Nat
deriving Repr, DecidableEq

/-- `cleanup`: when `requests.jsonl` does not exist, the source returns
early after stamping `.meta` — bodies are left untouched (even orphaned
ones) and the result carries no `remainingEntries` field.  Otherwise,
steps 3-6: collect the referenced body names of the survivors, delete
every body file outside that set, rewrite the log with the survivors, and
stamp `lastCleanup = now`.  (When the source skips the rewrite because
nothing was deleted, the file content is already exactly the survivors, so
the resulting state is the same.) -/
def cleanup (s : StoreState) (now ttl maxSize : Nat) : StoreState × CleanupResult :=
  match s.log with
  | none => (⟨none, s.bodies, now⟩, ⟨0, 0, 0, none⟩)
  | some _ =>
      let entries2 := (cleanupSized s now ttl maxSize).1
      let refs := referencedNames entries2
      let keptBodies := s.bodies.filter (fun b => decide (b.1 ∈ refs))
      let removedBodies := s.bodies.filter (fun b => !decide (b.1 ∈ refs))
      (⟨some entries2, keptBodies, now⟩,
       ⟨s.entries.length - entries2.length, removedBodies.length,
        (removedBodies.map (fun b => b.2)).sum, some entries2.length⟩)

/-! ## Network store: body storage and append -/

/-- Body content as a byte list. -/
abbrev Content := List Nat

/-- The bodies directory as (filename, content) pairs. -/
abbrev BodiesDir := List (String × Content)

/-- `<hash>.req` / `<hash>.res` file name; `hash` models
`sha256(content).hex.slice(0, 16)` from the crypto library. -/
def bodyFileName (hash : Content → String) (c : Content) (isRequest : Bool) : String :=
  hash c ++ (if isRequest then ".req" else ".res")

def dirContains (d : BodiesDir) (name : String) : Bool :=
  d.any (fun b => b.1 = name)

/-- `storeBody`: compute the content hash, and write the file only if it
does not already exist (content-addressed dedup).  Returns the hash. -/
def storeBody (hash : Content → String) (d : BodiesDir) (c : Content)
    (isRequest : Bool) : String × BodiesDir :=
  let h := hash c
  let name := h ++ (if isRequest then ".req" else ".res")
  if dirContains d name then (h, d) else (h, d ++ [(name, c)])

/-- Lock-file plus log state seen by `appendEntrySync`; `lockMtime` is the
mtime of `.lock` when it exists. -/
structure AppendState where
  lockMtime : Option Nat
  lines : List String
deriving Repr, DecidableEq

structure AppendOutcome where
  st : AppendState
  heldLock : Bool
  removedStale : Bool
deriving Repr, DecidableEq

/-- `appendEntrySync`, sequential model (no interleaved writer between the
stat and the re-open): open `.lock` with wx; on contention, remove it and
reacquire when it is older than 5 s, otherwise append without the lock; the
append itself happens on every path exactly once. -/
def appendEntrySync (st : AppendState) (line : String) (now : Nat) : AppendOutcome :=
  match st.lockMtime with
  | none => ⟨⟨none, st.lines ++ [line]⟩, true, false⟩
  | some m =>
      if 5000 < now - m then ⟨⟨none, st.lines ++ [line]⟩, true, true⟩
      else ⟨⟨some m, st.lines ++ [line]⟩, false, false⟩

/-! ## Network store: query filters -/

/-- `parseInt(s, 10)`: skip ASCII whitespace, optional sign, then leading
decimal digits; `none` models `NaN`. -/
def parseInt10 (s : String) : Option Int :=
  let cs := s.data.dropWhile (fun c => c = ' ' ∨ c = '\t' ∨ c = '\n' ∨ c = '\r')
  let signed : Bool × List Char :=
    match cs with
    | '-' :: r => (true, r)
    | '+' :: r => (false, r)
    | r => (false, r)
  let digits := signed.2.takeWhile Char.isDigit
  if digits.isEmpty then none
  else
    let n : Nat := digits.foldl (fun a c => a * 10 + (c.toNat - 48)) 0
    some (if signed.1 then -(n : Int) else (n : Int))

def isPrefixCL : List Char → List Char → Bool
  | [], _ => true
  | _ :: _, [] => false
  | a :: ta, b :: tb => a = b && isPrefixCL ta tb

/-- `hay.includes(sub)` on character lists. -/
def containsCL : List Char → List Char → Bool
  | [], sub => sub.isEmpty
  | c :: t, sub => isPrefixCL sub (c :: t) || containsCL t sub

def containsStr (hay sub : String) : Bool :=
  containsCL hay.data sub.data

/-- ASCII lower-casing of one character (the only case mapping the stored
URLs and filters exercise). -/
def charToLower (c : Char) : Char :=
  if 65 ≤ c.toNat ∧ c.toNat ≤ 90 then Char.ofNat (c.toNat + 32) else c

/-- ASCII upper-casing of one character. -/
def charToUpper (c : Char) : Char :=
  if 97 ≤ c.toNat ∧ c.toNat ≤ 122 then Char.ofNat (c.toNat - 32) else c

def sToUpper (s : String) : String :=
  String.mk (s.data.map charToUpper)

def sStartsWith (s p : String) : Bool :=
  isPrefixCL p.data s.data

def sEndsWith (s p : String) : Bool :=
  isPrefixCL p.data.reverse s.data.reverse

def sTake (s : String) (n : Nat) : String :=
  String.mk (s.data.take n)

def sDrop (s : String) (n : Nat) : String :=
  String.mk (s.data.drop n)

def sDropRight (s : String) (n : Nat) : String :=
  String.mk (s.data.take (s.data.length - n))

/-- `String(n)` for a natural number (digit recursion with fuel). -/
def natToCharsAux : Nat → Nat → List Char
  | 0, _ => []
  | fuel + 1, n =>
      if n = 0 then []
      else natToCharsAux fuel (n / 10) ++ [Char.ofNat (48 + n % 10)]

def natToString (n : Nat) : String :=
  if n = 0 then "0" else String.mk (natToCharsAux n n)

/-- `String(i)` for an integral JS number. -/
def intToString (i : Int) : String :=
  if i < 0 then "-" ++ natToString i.natAbs else natToString i.natAbs

/-- Split a glob pattern on `*` into its literal parts. -/
def splitStar : List Char → List (List Char)
  | [] => [[]]
  | c :: rest =>
      if c = '*' then [] :: splitStar rest
      else
        match splitStar rest with
        | p :: ps => (c :: p) :: ps
        | [] => [[c]]

/-- Suffix of `s` after the leftmost occurrence of `p`, if any. -/
def afterMatch (p : List Char) : List Char → Option (List Char)
  | [] => if p.isEmpty then some [] else none
  | c :: rest =>
      if isPrefixCL p (c :: rest) then some ((c :: rest).drop p.length)
      else afterMatch p rest

/-- Unanchored matching of `p0.*p1.*…pk` built by the source's
escape-then-`.*` glob translation. -/
def partsMatch : List (List Char) → List Char → Bool
  | [], _ => true
  | [p], s => containsCL s p
  | p :: ps, s =>
      match afterMatch p s with
      | some rest => partsMatch ps rest
      | none => false

/-- `matchesUrlPattern`: `/regex/` delegates to the RegExp engine `rTest`
(`none` = constructor threw, caught as `false`); a pattern containing `*`
is escaped and `*` becomes `.*`; otherwise substring. -/
def matchesUrlPattern (rTest : String → String → Option Bool)
    (url pat : String) : Bool :=
  if pat = "" then true
  else if sStartsWith pat "/" && sEndsWith pat "/" then
    (rTest (sDropRight (sDrop pat 1) 1) url).getD false
  else if pat.data.contains '*' then
    partsMatch (splitStar pat.data) url.data
  else containsCL url.data pat.data

/-- Status filter: an exact number or a string (`"4xx"` class or digits). -/
inductive StatusF where
  | num (n : Int)
  | str (s : String)
deriving Repr, DecidableEq

structure Filters where
  origin : Option String := none
  method : Option String := none
  status : Option StatusF := none
  type : Option String := none
  since : Option Nat := none
  hasBody : Option Bool := none
  excludeStatic : Bool := false
  urlPattern : Option String := none
  last : Option Int := none
deriving Repr, DecidableEq

/-- `if (origin) { if (getOriginFromUrl(entry.url) !== origin) return false }` -/
def originOk (gOrigin : String → Option String) (e : NetEntry) (f : Filters) : Bool :=
  match f.origin with
  | none => true
  | some o => if o = "" then true else decide (gOrigin e.url = some o)

/-- `if (method && entry.method !== method.toUpperCase()) return false` -/
def methodOk (e : NetEntry) (f : Filters) : Bool :=
  match f.method with
  | none => true
  | some m => if m = "" then true else decide (e.method = sToUpper m)

/-- The status block of `matchesFilters`. -/
def statusOk (e : NetEntry) (f : Filters) : Bool :=
  match f.status with
  | none => true
  | some (.num n) => decide (e.status = n)
  | some (.str s) =>
      if sEndsWith s "xx" then sStartsWith (intToString e.status) (sTake s 1)
      else
        match parseInt10 s with
        | some k => decide (e.status = k)
        | none => false

/-- `entry.contentType || entry.responseHeaders?.["content-type"] || ""` -/
def contentTypeOf (e : NetEntry) : String :=
  match e.contentType with
  | some s => if s = "" then (e.respContentType.getD "") else s
  | none => e.respContentType.getD ""

def typeOk (e : NetEntry) (f : Filters) : Bool :=
  match f.type with
  | none => true
  | some t => if t = "" then true else containsStr (contentTypeOf e) t

/-- `if (since && entry.timestamp < since) return false` -/
def sinceOk (e : NetEntry) (f : Filters) : Bool :=
  match f.since with
  | none => true
  | some n => if n = 0 then true else decide (n ≤ e.timestamp)

/-- `!!entry.responseBodyHash` -/
def hasRespBody (e : NetEntry) : Bool :=
  match e.responseBodyHash with
  | some h => decide (h ≠ "")
  | none => false

def hasBodyOk (e : NetEntry) (f : Filters) : Bool :=
  match f.hasBody with
  | none => true
  | some b => decide (b = hasRespBody e)

def staticExts : List String :=
  [".css", ".js", ".png", ".jpg", ".jpeg", ".gif", ".svg", ".woff", ".woff2", ".ttf", ".ico"]

/-- `entry.url.split("?")[0].toLowerCase()` -/
def urlPathLower (url : String) : String :=
  String.mk ((url.data.takeWhile (fun c => c ≠ '?')).map charToLower)

def excludeStaticOk (e : NetEntry) (f : Filters) : Bool :=
  if f.excludeStatic then
    !(staticExts.any (fun ext => sEndsWith (urlPathLower e.url) ext))
  else true

def urlPatternOk (rTest : String → String → Option Bool) (e : NetEntry) (f : Filters) : Bool :=
  match f.urlPattern with
  | none => true
  | some p => if p = "" then true else matchesUrlPattern rTest e.url p

/-- `matchesFilters`: the source's early-return cascade, written as the
equivalent conjunction of its blocks in source order. -/
def matchesFilters (gOrigin : String → Option String)
    (rTest : String → String → Option Bool) (e : NetEntry) (f : Filters) : Bool :=
  originOk gOrigin e f && methodOk e f && statusOk e f && typeOk e f &&
    sinceOk e f && hasBodyOk e f && excludeStaticOk e f && urlPatternOk rTest e f

/-- The line loop of `readEntriesSync`: blank and malformed lines (`none`)
are skipped, parsed entries are kept when they pass the filters. -/
def collectEntries (gOrigin : String → Option String)
    (rTest : String → String → Option Bool) (f : Filters) :
    List (Option NetEntry) → List NetEntry
  | [] => []
  | none :: rest => collectEntries gOrigin rTest f rest
  | some e :: rest =>
      if matchesFilters gOrigin rTest e f then e :: collectEntries gOrigin rTest f rest
      else collectEntries gOrigin rTest f rest

/-- `if (last && last > 0) return entries.slice(-last)` -/
def applyLast (lastF : Option Int) (entries : List NetEntry) : List NetEntry :=
  match lastF with
  | some n => if 0 < n then entries.drop (entries.length - n.toNat) else entries
  | none => entries

/-- `readEntriesSync` over the parsed lines of `requests.jsonl`. -/
def readEntriesSync (gOrigin : String → Option String)
    (rTest : String → String → Option Bool)
    (log : List (Option NetEntry)) (f : Filters) : List NetEntry :=
  applyLast f.last (collectEntries gOrigin rTest f log)

/-! ## Workflow engine: JS values -/

/-- JSON-transportable JS values as handled by the workflow executor;
`vUndefined` models `undefined`.  JS numbers are modelled as integers (every
numeric value the executor manipulates in the claims is integral). -/
inductive JVal where
  | vNull
  | vUndefined
  | vBool (b : Bool)
  | vNum (n : Int)
  | vStr (s : String)
  | vArr (elems : List JVal)
  | vObj (fields : List (String × JVal))
deriving Repr

def lbrace : Char := Char.ofNat 123

def rbrace : Char := Char.ofNat 125

def jsTypeof : JVal → String
  | .vUndefined => "undefined"
  | .vNull => "object"
  | .vBool _ => "boolean"
  | .vNum _ => "number"
  | .vStr _ => "string"
  | .vArr _ => "object"
  | .vObj _ => "object"

/-- JS ToBoolean. -/
def truthy : JVal → Bool
  | .vNull => false
  | .vUndefined => false
  | .vBool b => b
  | .vNum n => decide (n ≠ 0)
  | .vStr s => decide (s ≠ "")
  | .vArr _ => true
  | .vObj _ => true

def isUndefined : JVal → Bool
  | .vUndefined => true
  | _ => false

/-- Property access `v.k` (missing property reads as `undefined`). -/
def getField : JVal → String → JVal
  | .vObj fs, k => (fs.lookup k).getD .vUndefined
  | _, _ => .vUndefined

/-- Index access `v[i]` on arrays. -/
def getIndex : JVal → Nat → JVal
  | .vArr xs, i => (xs.get? i).getD .vUndefined
  | _, _ => .vUndefined

def escC (c : Char) : List Char :=
  if c = '"' ∨ c = '\\' then ['\\', c]
  else if c = '\n' then ['\\', 'n']
  else [c]

def escapeJS (s : String) : String :=
  String.mk (s.data.flatMap escC)

def joinComma (l : List String) : String :=
  String.intercalate "," l

mutual

def jsonStringify : JVal → String
  | .vNull => "null"
  | .vUndefined => "null"
  | .vBool b => if b then "true" else "false"
  | .vNum n => intToString n
  | .vStr s => "\"" ++ escapeJS s ++ "\""
  | .vArr xs => "[" ++ joinComma (jsonStringifyList xs) ++ "]"
  | .vObj fs => String.singleton lbrace ++ joinComma (jsonStringifyFields fs) ++ String.singleton rbrace

def jsonStringifyList : List JVal → List String
  | [] => []
  | v :: rest => jsonStringify v :: jsonStringifyList rest

def jsonStringifyFields : List (String × JVal) → List String
  | [] => []
  | (k, v) :: rest => ("\"" ++ escapeJS k ++ "\":" ++ jsonStringify v) :: jsonStringifyFields rest

end

/-! ## Workflow engine: variable substitution -/

abbrev Vars := List (String × JVal)

abbrev Trace := List (String × JVal)

/-- JS `\w` (ASCII word character). -/
def isWordChar (c : Char) : Bool :=
  c.isAlphanum || c = '_'

/-- The anchored regex `^%\x7b(\w+)\x7d$` of `resolveVar`: returns the
captured name when the whole string is a single variable reference. -/
def simpleRefName (cs : List Char) : Option (List Char) :=
  match cs with
  | c1 :: c2 :: rest =>
      if c1 = '%' ∧ c2 = lbrace then
        let body := rest.takeWhile isWordChar
        if body.isEmpty then none
        else if rest.dropWhile isWordChar = [rbrace] then some body
        else none
      else none
  | _ => none

/-- `vars[name]` with the source's `!== undefined` convention. -/
def lookupVar (vars : Vars) (name : String) : Option JVal :=
  match vars.lookup name with
  | some .vUndefined => none
  | some v => some v
  | none => none

/-- JS object assignment `vars[k] = v`: update in place, append when new. -/
def setVar : Vars → String → JVal → Vars
  | [], k, v => [(k, v)]
  | (k1, v1) :: rest, k, v =>
      if k1 = k then (k, v) :: rest else (k1, v1) :: setVar rest k v

/-- Interpolation payload: `typeof val === "object"` (including null) goes
through `JSON.stringify`, primitives through `String(...)`. -/
def substValue : JVal → String
  | .vObj fs => jsonStringify (.vObj fs)
  | .vArr xs => jsonStringify (.vArr xs)
  | .vNull => jsonStringify .vNull
  | .vStr s => s
  | .vNum n => intToString n
  | .vBool b => if b then "true" else "false"
  | .vUndefined => "undefined"

/-- The global replace `template.replace(/%\x7b(\w+)\x7d/g, …)`: scan left
to right, substitute defined variables, keep `%\x7b name \x7d` verbatim for
undefined ones. -/
def interpSubst (vars : Vars) : List Char → List Char
  | [] => []
  | c1 :: rest =>
      if c1 = '%' then
        match rest with
        | [] => [c1]
        | c2 :: rest2 =>
            if c2 = lbrace then
              let body := rest2.takeWhile isWordChar
              if body.isEmpty then c1 :: interpSubst vars (c2 :: rest2)
              else
                match hrem : rest2.dropWhile isWordChar with
                | c3 :: tail =>
                    if c3 = rbrace then
                      match lookupVar vars (String.mk body) with
                      | some v => (substValue v).data ++ interpSubst vars tail
                      | none => c1 :: c2 :: (body ++ c3 :: interpSubst vars tail)
                    else c1 :: interpSubst vars (c2 :: rest2)
                | [] => c1 :: interpSubst vars (c2 :: rest2)
            else c1 :: interpSubst vars (c2 :: rest2)
      else c1 :: interpSubst vars rest
termination_by cs => cs.length
decreasing_by
  all_goals simp_wf
  all_goals
    (have h1 : (rest.dropWhile isWordChar).length ≤ rest.length :=
       (@List.dropWhile_sublist Char rest isWordChar).length_le
     rw [hrem] at h1
     simp at h1
     omega)

/-- `resolveVar`: a string that is exactly one `%\x7b name \x7d` reference
resolves to the variable's value with its original type (or stays verbatim
when undefined); any other string is interpolated; non-strings pass
through. -/
def resolveVar (template : JVal) (vars : Vars) : JVal :=
  match template with
  | .vStr s =>
      match simpleRefName s.data with
      | some nm =>
          match lookupVar vars (String.mk nm) with
          | some v => v
          | none => .vStr s
      | none => .vStr (String.mk (interpSubst vars s.data))
  | v => v

mutual

def substituteVars (vars : Vars) : JVal → JVal
  | .vArr items => .vArr (substituteItems vars items)
  | .vObj fs => .vObj (substituteFields vars fs)
  | v => v

def substituteItems (vars : Vars) : List JVal → List JVal
  | [] => []
  | it :: rest =>
      (match it with
       | .vStr s => resolveVar (.vStr s) vars
       | .vObj fs => substituteVars vars (.vObj fs)
       | .vArr xs => substituteVars vars (.vArr xs)
       | other => other) :: substituteItems vars rest

def substituteFields (vars : Vars) : List (String × JVal) → List (String × JVal)
  | [] => []
  | (k, v) :: rest =>
      (k,
        match v with
        | .vStr s => resolveVar (.vStr s) vars
        | .vArr xs => substituteVars vars (.vArr xs)
        | .vObj fs => substituteVars vars (.vObj fs)
        | other => other) :: substituteFields vars rest

end

/-! ## Workflow engine: step execution -/

/-- `extractStepOutput`'s text probe `resp.result?.content?.[0]?.text`. -/
def textOf (resp : JVal) : JVal :=
  getField (getIndex (getField (getField resp "result") "content") 0) "text"

/-- The fallback chain of `extractStepOutput`: `resp.value` when defined,
else `resp.result` when defined, else the whole response. -/
def extractFallback (resp : JVal) : JVal :=
  if !(isUndefined (getField resp "value")) then getField resp "value"
  else if !(isUndefined (getField resp "result")) then getField resp "result"
  else resp

/-- `extractStepOutput` with the platform JSON parser as parameter
(`none` = `JSON.parse` threw).  Per the wire protocol, a `text` content
field is a string; a truthy (non-empty) one is parsed as JSON with the raw
text as fallback. -/
def extractStepOutput (parse : String → Option JVal) (resp : JVal) : JVal :=
  match textOf resp with
  | .vStr s =>
      if s = "" then extractFallback resp
      else
        match parse s with
        | some v => v
        | none => .vStr s
  | _ => extractFallback resp

def AUTO_WAIT_COMMANDS : List String :=
  ["go", "navigate", "click", "key", "form.fill", "submit",
   "tab.switch", "tab.new", "back", "forward"]

def AUTO_WAIT_MAP : List (String × String) :=
  [("navigate", "wait.load"), ("go", "wait.load"), ("click", "wait.dom"),
   ("key", "wait.dom"), ("form.fill", "wait.dom"), ("submit", "wait.load"),
   ("tab.switch", "wait.load"), ("tab.new", "wait.load"),
   ("back", "wait.load"), ("forward", "wait.load")]

def shouldAutoWait (cmd : String) : Bool :=
  AUTO_WAIT_COMMANDS.any (fun c => cmd = c || sStartsWith cmd (c ++ "."))

/-- `getAutoWaitCommand`: exact key first, then prefix-dot match. -/
def getAutoWaitCommand (cmd : String) : Option String :=
  match AUTO_WAIT_MAP.lookup cmd with
  | some w => some w
  | none => (AUTO_WAIT_MAP.find? (fun p => sStartsWith cmd (p.1 ++ "."))).map (fun p => p.2)

/-- A workflow step: loop fields (`repeat`, `each`, nested `steps`,
`until`) and leaf fields (`cmd`, `args`, `as`). -/
inductive WStep where
  | mk (repeatVal : Option JVal) (eachVal : Option JVal)
      (steps : List WStep) (untilStep : Option WStep)
      (cmd : String) (args : JVal) (asField : Option String)

def WStep.repeatVal : WStep → Option JVal
  | .mk r _ _ _ _ _ _ => r

def WStep.eachVal : WStep → Option JVal
  | .mk _ e _ _ _ _ _ => e

def WStep.cmd : WStep → String
  | .mk _ _ _ _ c _ _ => c

def WStep.args : WStep → JVal
  | .mk _ _ _ _ _ a _ => a

def WStep.asField : WStep → Option String
  | .mk _ _ _ _ _ _ a => a

/-- Truthiness of `step.as`. -/
def asName (st : WStep) : Option String :=
  match st.asField with
  | some a => if a = "" then none else some a
  | none => none

/-- The tool backend reached through `sendDoRequest`: deterministic reply
per (tool, args), `Except.error` modelling a rejected promise (socket
error or timeout). -/
abbrev Net := String → JVal → Except String JVal

abbrev JParse := String → Option JVal

structure ExecOptions where
  onErrorStop : Bool
  autoWait : Bool
deriving Repr, DecidableEq

structure SingleResult where
  success : Bool
  error : Option String
  output : Option JVal
deriving Repr

/-- The fixed arguments of the follow-up wait request. -/
def waitArgsFor (waitCmd : String) : JVal :=
  if waitCmd = "wait.load" then .vObj [("timeout", .vNum 10000)]
  else .vObj [("stable", .vNum 100), ("timeout", .vNum 5000)]

/-- `executeSingleStep`: substitute variables, send the tool request,
surface reply errors, capture `as` output, then issue the auto-wait whose
outcome (reply error or thrown) is ignored.  The third component is the
trace of issued tool requests. -/
def executeSingleStep (net : Net) (parse : JParse) (step : WStep) (vars : Vars)
    (opts : ExecOptions) : SingleResult × Vars × Trace :=
  let resolvedArgs := substituteVars vars step.args
  match net step.cmd resolvedArgs with
  | .error msg => (⟨false, some msg, none⟩, vars, [(step.cmd, resolvedArgs)])
  | .ok resp =>
      if truthy (getField resp "error") then
        let errText :=
          match getField (getIndex (getField (getField resp "error") "content") 0) "text" with
          | .vStr s => if s = "" then jsonStringify (getField resp "error") else s
          | _ => jsonStringify (getField resp "error")
        (⟨false, some errText, none⟩, vars, [(step.cmd, resolvedArgs)])
      else
        let vars1 :=
          match asName step with
          | some a => setVar vars a (extractStepOutput parse resp)
          | none => vars
        let trace :=
          if opts.autoWait then
            match getAutoWaitCommand step.cmd with
            | some w => [(step.cmd, resolvedArgs), (w, waitArgsFor w)]
            | none => [(step.cmd, resolvedArgs)]
          else [(step.cmd, resolvedArgs)]
        (⟨true, none, (asName step).bind (fun a => lookupVar vars1 a)⟩, vars1, trace)

/-- The copy-back loop after each loop iteration: captures of non-loop
nested steps propagate from the iteration scope to the outer scope. -/
def copyBackVars (body : List WStep) (loopVars : Vars) (vars : Vars) : Vars :=
  body.foldl
    (fun acc st =>
      if st.repeatVal.isNone && st.eachVal.isNone then
        match asName st with
        | some a =>
            match lookupVar loopVars a with
            | some v => setVar acc a v
            | none => acc
        | none => acc
      else acc)
    vars

structure ExecResult where
  success : Bool
  error : Option String
  stepsExecuted : Nat
deriving Repr, DecidableEq

structure BodyRes where
  stopped : Bool
  error : Option String
  count : Nat
deriving Repr, DecidableEq

def MAX_LOOP_ITERATIONS : Int := 100

mutual

/-- `executeStep`: `repeat` loops (resolved count, default 1 on non-number,
capped at 100), `each` loops (array variable, item binding, capped at 100),
and leaf steps via `executeSingleStep`. -/
def executeStep (net : Net) (parse : JParse) (step : WStep) (vars : Vars)
    (opts : ExecOptions) : ExecResult × Vars × Trace :=
  match step with
  | .mk (some rv) _ steps untl _ _ _ =>
      let r0 := resolveVar rv vars
      let maxA : Int :=
        match r0 with
        | .vNum n => n
        | .vStr s => (parseInt10 s).getD 1
        | _ => 1
      let maxB : Int := min maxA MAX_LOOP_ITERATIONS
      if steps.isEmpty then (⟨false, some "repeat: steps array required", 0⟩, vars, [])
      else execRepeatIters net parse maxB.toNat 0 steps untl vars opts 0
  | .mk none (some ev) steps _ _ _ asF =>
      let items0 := resolveVar ev vars
      match items0 with
      | .vArr items =>
          if steps.isEmpty then (⟨false, some "each: steps array required", 0⟩, vars, [])
          else
            let maxItems := min items.length 100
            let itemVar :=
              match asF with
              | some a => if a = "" then "item" else a
              | none => "item"
            execEachIters net parse (items.take maxItems) 0 steps itemVar vars opts 0
      | other =>
          (⟨false, some ("each: expected array, got " ++ jsTypeof other ++
            (if isUndefined other then " (undefined)" else "")), 0⟩, vars, [])
  | .mk none none steps untl cmd args asF =>
      let out := executeSingleStep net parse (.mk none none steps untl cmd args asF) vars opts
      (⟨out.1.success, out.1.error, 1⟩, out.2.1, out.2.2)
termination_by (sizeOf step, 0)
decreasing_by all_goals (simp_wf; omega)

/-- One `repeat` iteration: fresh `_index`/`_iteration` bindings, nested
body, copy-back, then the optional `until` probe whose truthy output exits
the loop. -/
def execRepeatIters (net : Net) (parse : JParse) (n : Nat) (i : Nat) (body : List WStep)
    (untl : Option WStep) (vars : Vars) (opts : ExecOptions) (acc : Nat) :
    ExecResult × Vars × Trace :=
  match n with
  | 0 => (⟨true, none, acc⟩, vars, [])
  | n' + 1 =>
      let loopVars := setVar (setVar vars "_index" (.vNum (i : Int))) "_iteration" (.vNum ((i : Int) + 1))
      let bodyOut := execBody net parse body loopVars opts
      let bres := bodyOut.1
      let tr1 := bodyOut.2.2
      if bres.stopped then (⟨false, bres.error, acc + bres.count⟩, vars, tr1)
      else
        let vars1 := copyBackVars body bodyOut.2.1 vars
        match untl with
        | none =>
            let rest := execRepeatIters net parse n' (i + 1) body untl vars1 opts (acc + bres.count)
            (rest.1, rest.2.1, tr1 ++ rest.2.2)
        | some u =>
            let uOut := executeSingleStep net parse u bodyOut.2.1 opts
            let exitLoop :=
              match uOut.1.output with
              | some v => truthy v
              | none => false
            if exitLoop then (⟨true, none, acc + bres.count + 1⟩, vars1, tr1 ++ uOut.2.2)
            else
              let rest := execRepeatIters net parse n' (i + 1) body untl vars1 opts (acc + bres.count + 1)
              (rest.1, rest.2.1, tr1 ++ uOut.2.2 ++ rest.2.2)
termination_by (sizeOf body + 1, n)
decreasing_by all_goals (simp_wf; omega)

/-- One `each` iteration: bind the item variable then `_index` and
`_iteration`, run the nested body, copy captures back. -/
def execEachIters (net : Net) (parse : JParse) (items : List JVal) (i : Nat)
    (body : List WStep) (itemVar : String) (vars : Vars) (opts : ExecOptions)
    (acc : Nat) : ExecResult × Vars × Trace :=
  match items with
  | [] => (⟨true, none, acc⟩, vars, [])
  | item :: rest =>
      let loopVars :=
        setVar (setVar (setVar vars itemVar item) "_index" (.vNum (i : Int)))
          "_iteration" (.vNum ((i : Int) + 1))
      let bodyOut := execBody net parse body loopVars opts
      let bres := bodyOut.1
      let tr1 := bodyOut.2.2
      if bres.stopped then (⟨false, bres.error, acc + bres.count⟩, vars, tr1)
      else
        let vars1 := copyBackVars body bodyOut.2.1 vars
        let restOut := execEachIters net parse rest (i + 1) body itemVar vars1 opts (acc + bres.count)
        (restOut.1, restOut.2.1, tr1 ++ restOut.2.2)
termination_by (sizeOf body + 1, items.length)
decreasing_by all_goals (simp_wf; omega)

/-- The nested-steps loop shared by both loop forms: each nested step runs
via `executeStep`, contributes `stepsExecuted || 1`, and a failure stops
the walk when the `onError` policy is `stop`. -/
def execBody (net : Net) (parse : JParse) (body : List WStep) (vars : Vars)
    (opts : ExecOptions) : BodyRes × Vars × Trace :=
  match body with
  | [] => (⟨false, none, 0⟩, vars, [])
  | st :: rest =>
      let out := executeStep net parse st vars opts
      let r := out.1
      let c := if r.stepsExecuted = 0 then 1 else r.stepsExecuted
      if !r.success && opts.onErrorStop then (⟨true, r.error, c⟩, out.2.1, out.2.2)
      else
        let restOut := execBody net parse rest out.2.1 opts
        (⟨restOut.1.stopped, restOut.1.error, c + restOut.1.count⟩, restOut.2.1,
         out.2.2 ++ restOut.2.2)
termination_by (sizeOf body, 0)
decreasing_by all_goals (simp_wf; omega)

end

/-! ## Claim-side definitions -/

/-- The conjunctive reading of the query filters, following the
specification's wording clause by clause ("filters compose conjunctively:
origin (exact), method (exact, upper-cased), status (exact integer or
`Nxx` class), content-type substring, minimum timestamp, body-presence,
exclude-static, URL pattern"). -/
def ClaimMatches (gOrigin : String → Option String)
    (rTest : String → String → Option Bool) (e : NetEntry) (f : Filters) : Prop :=
  (∀ o, f.origin = some o → o ≠ "" → gOrigin e.url = some o) ∧
  (∀ m, f.method = some m → m ≠ "" → e.method = sToUpper m) ∧
  (∀ n, f.status = some (.num n) → e.status = n) ∧
  (∀ c, f.status = some (.str c) → sEndsWith c "xx" = true →
      sStartsWith (intToString e.status) (sTake c 1) = true) ∧
  (∀ c, f.status = some (.str c) → sEndsWith c "xx" = false →
      ∃ k, parseInt10 c = some k ∧ e.status = k) ∧
  (∀ t, f.type = some t → t ≠ "" → containsStr (contentTypeOf e) t = true) ∧
  (∀ n, f.since = some n → n ≤ e.timestamp) ∧
  (∀ b, f.hasBody = some b → hasRespBody e = b) ∧
  (f.excludeStatic = true → ∀ ext ∈ staticExts, sEndsWith (urlPathLower e.url) ext = false) ∧
  (∀ p, f.urlPattern = some p → p ≠ "" → matchesUrlPattern rTest e.url p = true)

/-- A leaf workflow step. -/
def mkLeaf (cmd : String) (args : JVal) : WStep :=
  .mk none none [] none cmd args none

/-- The backend accepts the request and replies without an `error` field. -/
def netOkB (net : Net) (cmd : String) (args : JVal) : Bool :=
  match net cmd args with
  | .ok resp => !truthy (getField resp "error")
  | .error _ => false

/-- The literal string `%` `lbrace` name `rbrace`. -/
def refStr (nm : String) : String :=
  "%" ++ String.singleton lbrace ++ nm ++ String.singleton rbrace

/-- A reply that carries a `result` but no text content part. -/
def respNoText : JVal :=
  .vObj [("result", .vObj [("ok", .vBool true)])]

/-- A degenerate stand-in for `JSON.parse` used only at inputs where the
parser is irrelevant or expected to fail. -/
def parseNone : JParse := fun _ => none

/-- A parser instance for witnesses: accepts the literal `[1]`. -/
def parseArr1 : JParse := fun s =>
  if s = "[1]" then some (.vArr [.vNum 1]) else none

/-- Counterexample store: two fresh entries, the newer one referencing a
body larger than the whole size cap (all arithmetic exact in doubles). -/
def cexEntryA : NetEntry :=
  ⟨"a", 1, "https://x/a", "GET", 200, none, none, none, some "aaaa", 100⟩

def cexEntryB : NetEntry :=
  ⟨"b", 2, "https://x/b", "GET", 200, none, none, none, some "bbbb", 100⟩

def cexStore : StoreState :=
  ⟨some [cexEntryA, cexEntryB], [("aaaa.res", 100), ("bbbb.res", 209715400)], 0⟩

/-- Counterexample store for the missing-log path: `requests.jsonl` does
not exist but an unreferenced body file is present (reachable by a
`storeBody` with no subsequent append, or a crash before the first
append). -/
def cexNoLog : StoreState :=
  ⟨none, [("orphan.res", 10)], 0⟩

def cexNow : Nat := DEFAULT_TTL

/-- Witness store: one fresh entry with its body present, one expired. -/
def witEntryOld : NetEntry :=
  ⟨"old", 10, "https://x/old", "GET", 200, none, none, none, some "cccc", 50⟩

def witEntryNew : NetEntry :=
  ⟨"new", 999999, "https://x/new", "GET", 200, none, none, none, some "dddd", 50⟩

def witStore : StoreState :=
  ⟨some [witEntryOld, witEntryNew], [("cccc.res", 10), ("dddd.res", 20)], 0⟩

def witNow : Nat := DEFAULT_TTL + 1000

/-- A hash-function instance for the C5 witness. -/
def witHash : Content → String := fun c => toString c.length

/-- Origin extractor instance for the C3 witness. -/
def witGOrigin : String → Option String := fun u =>
  if u = "https://x/new" then some "https://x" else none

/-- RegExp-engine instance for the C3 witness. -/
def witRTest : String → String → Option Bool := fun _ _ => some true

/-- Filter set exercising most clauses, for the C3 witness. -/
def witF : Filters :=
  { origin := some "https://x", method := some "get", status := some (.str "2xx"),
    type := none, since := some 5, hasBody := some true, excludeStatic := true,
    urlPattern := some "new", last := some 5 }

/-- Backend instances for workflow witnesses: always-succeeding, and one
whose `wait.load` replies are rejected promises (thrown). -/
def netOkEmpty : Net := fun _ _ => .ok (.vObj [])

def netFailWait : Net := fun c _ =>
  if c = "wait.load" then .error "wait timeout" else .ok (.vObj [])

/-- Backend whose `bad` tool always throws, for the onError-policy witness. -/
def netFailBad : Net := fun c _ =>
  if c = "bad" then .error "boom" else .ok (.vObj [])

/-- A reply carrying a text content part with the literal `[1]`. -/
def respText : JVal :=
  .vObj [("result", .vObj [("content", .vArr [.vObj [("text", .vStr "[1]")]])])]

/-! ## Store lemmas -/

theorem mem_insertTS {e x : NetEntry} {l : List NetEntry} :
    e ∈ insertTS x l ↔ e = x ∨ e ∈ l := by
  induction l with
  | nil => simp [insertTS]
  | cons y ys ih =>
      simp only [insertTS]
      split
      all_goals simp only [List.mem_cons, ih]
      all_goals tauto

theorem mem_sortTS {e : NetEntry} {l : List NetEntry} :
    e ∈ sortTS l ↔ e ∈ l := by
  induction l with
  | nil => simp [sortTS]
  | cons y ys ih => simp [sortTS, mem_insertTS, ih]

theorem evictOldest_subset {e : NetEntry} {l : List NetEntry} {t : SizeEst} {m : Nat}
    (h : e ∈ (evictOldest l t m).1) : e ∈ l := by
  induction l generalizing t with
  | nil => simpa [evictOldest] using h
  | cons y ys ih =>
      simp only [evictOldest] at h
      split at h
      · exact h
      · exact List.mem_cons_of_mem _ (ih h)

theorem evictOldest_bound (l : List NetEntry) (t : SizeEst) (m : Nat) :
    estLe (evictOldest l t m).2 m = true ∨ (evictOldest l t m).1 = [] := by
  induction l generalizing t with
  | nil => simp [evictOldest]
  | cons y ys ih =>
      simp only [evictOldest]
      split
      · left
        assumption
      · exact ih _

theorem cleanupSized_mem {s : StoreState} {now ttl maxSize : Nat}
    {e : NetEntry} (h : e ∈ (cleanupSized s now ttl maxSize).1) :
    e ∈ s.entries ∧ now - ttl ≤ e.timestamp := by
  simp only [cleanupSized] at h
  split at h
  · have h2 := mem_sortTS.mp (evictOldest_subset h)
    simpa using List.mem_filter.mp h2
  · simpa using List.mem_filter.mp h

theorem cleanup_entries_mem {s : StoreState} {now ttl maxSize : Nat}
    {e : NetEntry} (h : e ∈ (cleanup s now ttl maxSize).1.entries) :
    e ∈ s.entries ∧ now - ttl ≤ e.timestamp := by
  cases hes : s.log with
  | none =>
      rw [show (cleanup s now ttl maxSize).1.entries = [] from by
        simp [cleanup, hes, StoreState.entries]] at h
      exact absurd h (List.not_mem_nil e)
  | some es =>
      have hent : (cleanup s now ttl maxSize).1.entries =
          (cleanupSized s now ttl maxSize).1 := by
        simp [cleanup, hes, StoreState.entries]
      rw [hent] at h
      exact cleanupSized_mem h

theorem cleanup_bodies_referenced {s : StoreState} {now ttl maxSize : Nat}
    {b : String × Nat} (hlog : s.log ≠ none)
    (h : b ∈ (cleanup s now ttl maxSize).1.bodies) :
    b.1 ∈ referencedNames (cleanup s now ttl maxSize).1.entries := by
  cases hes : s.log with
  | none => exact absurd hes hlog
  | some es =>
      have hent : (cleanup s now ttl maxSize).1.entries =
          (cleanupSized s now ttl maxSize).1 := by
        simp [cleanup, hes, StoreState.entries]
      have hbod : (cleanup s now ttl maxSize).1.bodies =
          s.bodies.filter
            (fun p => decide (p.1 ∈ referencedNames (cleanupSized s now ttl maxSize).1)) := by
        simp [cleanup, hes]
      rw [hbod] at h
      rw [hent]
      simpa using (List.mem_filter.mp h).2

theorem cleanup_log_ne_none {s : StoreState} {now ttl maxSize : Nat}
    (hlog : s.log ≠ none) : (cleanup s now ttl maxSize).1.log ≠ none := by
  cases hes : s.log with
  | none => exact absurd hes hlog
  | some es => simp [cleanup, hes]

theorem cleanup_lastCleanup (s : StoreState) (now ttl maxSize : Nat) :
    (cleanup s now ttl maxSize).1.lastCleanup = now := by
  cases hes : s.log
  all_goals simp [cleanup, hes]

/-- Key no-op lemma: a state whose log file exists, whose entries are all
fresh, whose bodies are all referenced, and whose total size is within the
cap is left untouched by `cleanup` (up to the `lastCleanup` stamp). -/
theorem cleanup_noop (s : StoreState) (now ttl maxSize : Nat)
    (hlog : s.log ≠ none)
    (hfresh : ∀ e ∈ s.entries, now - ttl ≤ e.timestamp)
    (hrefs : ∀ b ∈ s.bodies, b.1 ∈ referencedNames s.entries)
    (hcap : totalDiskSize s ≤ maxSize)
    (hmeta : s.lastCleanup = now) :
    (cleanup s now ttl maxSize).1 = s ∧
    (cleanup s now ttl maxSize).2.deletedEntries = 0 ∧
    (cleanup s now ttl maxSize).2.deletedBodies = 0 ∧
    (cleanup s now ttl maxSize).2.freedBytes = 0 := by
  cases hes : s.log with
  | none => exact absurd hes hlog
  | some es =>
      have hse : s.entries = es := by simp [StoreState.entries, hes]
      have hfilter : s.entries.filter (fun e => decide (now - ttl ≤ e.timestamp)) = s.entries := by
        rw [List.filter_eq_self]
        intro e he
        simpa using hfresh e he
      have hsized : cleanupSized s now ttl maxSize = (s.entries, ⟨totalDiskSize s, 1⟩) := by
        simp only [cleanupSized, hfilter]
        rw [if_neg]
        intro hcontra
        exact absurd hcontra.1 (not_lt.mpr hcap)
      have hkept : s.bodies.filter (fun b => decide (b.1 ∈ referencedNames s.entries)) = s.bodies := by
        rw [List.filter_eq_self]
        intro b hb
        simpa using hrefs b hb
      have hrem : s.bodies.filter (fun b => !decide (b.1 ∈ referencedNames s.entries)) = [] := by
        rw [List.filter_eq_nil_iff]
        intro b hb
        simpa using hrefs b hb
      refine ⟨?_, ?_, ?_, ?_⟩
      · have h1 : (cleanup s now ttl maxSize).1 =
            (⟨some s.entries, s.bodies, now⟩ : StoreState) := by
          simp [cleanup, hes, hsized, hkept]
        rw [h1, hse, ← hes, ← hmeta]
      · simp [cleanup, hes, hsized]
      · simp [cleanup, hes, hsized, hkept, hrem]
      · simp [cleanup, hes, hsized, hkept, hrem]

/-! ## Claim C1 -/

/-- C1 counterexample, both failing modes of the original claim: on
`cexStore` one entry survives `cleanup()` while the actual on-disk total
(log plus body files) still exceeds the default 200 MB cap, because the
size-eviction loop works on a scaled estimate rather than the real total;
and on `cexNoLog` (bodies present but `requests.jsonl` absent) the early
return keeps the unreferenced body file even though no surviving entry
references it. -/
theorem c1_counterexample :
    ¬(totalDiskSize (cleanup cexStore cexNow DEFAULT_TTL DEFAULT_MAX_SIZE).1 ≤
        DEFAULT_MAX_SIZE ∨
      (cleanup cexStore cexNow DEFAULT_TTL DEFAULT_MAX_SIZE).1.entries = []) ∧
    (cleanup cexNoLog cexNow DEFAULT_TTL DEFAULT_MAX_SIZE).1.bodies =
        [("orphan.res", 10)] ∧
    (cleanup cexNoLog cexNow DEFAULT_TTL DEFAULT_MAX_SIZE).1.entries = [] := by
  decide

/-- C1 (amended): when `requests.jsonl` exists, after `cleanup()` every
file in the bodies directory is referenced by the requestBodyHash or
responseBodyHash of some surviving entry (with the log file absent the
source returns early and leaves even orphaned bodies untouched); and
either cleanup's internal size estimate (the measured total scaled by the
surviving-entry fraction) is at most the size cap or the surviving entry
count is zero. -/
theorem cleanup_no_orphans_and_estimate_bounded (s : StoreState)
    (now ttl maxSize : Nat) :
    (s.log ≠ none →
      ∀ b ∈ (cleanup s now ttl maxSize).1.bodies,
        ∃ e ∈ (cleanup s now ttl maxSize).1.entries, b.1 ∈ entryRefNames e) ∧
    (estLe (cleanupSized s now ttl maxSize).2 maxSize = true ∨
      (cleanup s now ttl maxSize).1.entries = []) := by
  constructor
  · intro hlog b hb
    have h := cleanup_bodies_referenced hlog hb
    simpa [referencedNames, List.mem_flatMap] using h
  · cases hes : s.log with
    | none =>
        right
        simp [cleanup, hes, StoreState.entries]
    | some es =>
        have hent : (cleanup s now ttl maxSize).1.entries =
            (cleanupSized s now ttl maxSize).1 := by
          simp [cleanup, hes, StoreState.entries]
        rw [hent]
        simp only [cleanupSized]
        split
        · exact evictOldest_bound _ _ _
        · rename_i hneg
          rw [not_and_or] at hneg
          rcases hneg with h1 | h2
          · left
            simpa [estLe] using not_lt.mp h1
          · right
            exact not_ne_iff.mp h2

/-- C1 witness: the amended statement applied to the concrete `witStore`,
discharging the log-exists hypothesis. -/
theorem cleanup_no_orphans_witness :
    witStore.log ≠ none ∧
    ("dddd.res", 20) ∈ (cleanup witStore witNow DEFAULT_TTL DEFAULT_MAX_SIZE).1.bodies ∧
    (∃ e ∈ (cleanup witStore witNow DEFAULT_TTL DEFAULT_MAX_SIZE).1.entries,
        ("dddd.res", 20).1 ∈ entryRefNames e) ∧
    (estLe (cleanupSized witStore witNow DEFAULT_TTL DEFAULT_MAX_SIZE).2 DEFAULT_MAX_SIZE = true ∨
      (cleanup witStore witNow DEFAULT_TTL DEFAULT_MAX_SIZE).1.entries = []) :=
  ⟨by decide, by decide,
   (cleanup_no_orphans_and_estimate_bounded witStore witNow DEFAULT_TTL
      DEFAULT_MAX_SIZE).1 (by decide) ("dddd.res", 20) (by decide),
   (cleanup_no_orphans_and_estimate_bounded witStore witNow DEFAULT_TTL
      DEFAULT_MAX_SIZE).2⟩

/-! ## Claim C2 -/

/-- C2 counterexample: on `cexStore`, the first `cleanup()` leaves the
actual on-disk total above the cap (only the scaled estimate dipped below
it), so a second `cleanup()` at the same instant evicts one more entry and
deletes one more body file — it is not a no-op. -/
theorem c2_counterexample :
    (cleanup (cleanup cexStore cexNow DEFAULT_TTL DEFAULT_MAX_SIZE).1 cexNow DEFAULT_TTL
        DEFAULT_MAX_SIZE).2.deletedEntries = 1 ∧
    (cleanup (cleanup cexStore cexNow DEFAULT_TTL DEFAULT_MAX_SIZE).1 cexNow DEFAULT_TTL
        DEFAULT_MAX_SIZE).2.deletedBodies = 1 := by
  decide

/-- C2 (amended): provided the first `cleanup()` leaves the actual on-disk
total within the size cap, a second `cleanup()` run at the same time with
no appends in between deletes zero entries and zero body files and leaves
the log and the bodies directory with identical contents (the resulting
store state is unchanged). -/
theorem cleanup_idempotent_under_cap (s : StoreState) (now ttl maxSize : Nat)
    (hcap : totalDiskSize (cleanup s now ttl maxSize).1 ≤ maxSize) :
    (cleanup (cleanup s now ttl maxSize).1 now ttl maxSize).1 =
        (cleanup s now ttl maxSize).1 ∧
    (cleanup (cleanup s now ttl maxSize).1 now ttl maxSize).2.deletedEntries = 0 ∧
    (cleanup (cleanup s now ttl maxSize).1 now ttl maxSize).2.deletedBodies = 0 ∧
    (cleanup (cleanup s now ttl maxSize).1 now ttl maxSize).2.freedBytes = 0 := by
  cases hes : s.log with
  | none =>
      have h1 : (cleanup s now ttl maxSize).1 = ⟨none, s.bodies, now⟩ := by
        simp [cleanup, hes]
      rw [h1]
      refine ⟨?_, ?_, ?_, ?_⟩
      all_goals simp [cleanup]
  | some es =>
      exact cleanup_noop (cleanup s now ttl maxSize).1 now ttl maxSize
        (cleanup_log_ne_none (by simp [hes]))
        (fun e he => (cleanup_entries_mem he).2)
        (fun b hb => cleanup_bodies_referenced (by simp [hes]) hb)
        hcap (cleanup_lastCleanup s now ttl maxSize)

/-- C2 witness: the amended idempotence applied to `witStore`. -/
theorem cleanup_idempotent_witness :
    (cleanup (cleanup witStore witNow DEFAULT_TTL DEFAULT_MAX_SIZE).1 witNow DEFAULT_TTL
        DEFAULT_MAX_SIZE).1 = (cleanup witStore witNow DEFAULT_TTL DEFAULT_MAX_SIZE).1 ∧
    (cleanup (cleanup witStore witNow DEFAULT_TTL DEFAULT_MAX_SIZE).1 witNow DEFAULT_TTL
        DEFAULT_MAX_SIZE).2.deletedEntries = 0 ∧
    (cleanup (cleanup witStore witNow DEFAULT_TTL DEFAULT_MAX_SIZE).1 witNow DEFAULT_TTL
        DEFAULT_MAX_SIZE).2.deletedBodies = 0 :=
  ⟨(cleanup_idempotent_under_cap witStore witNow DEFAULT_TTL DEFAULT_MAX_SIZE (by decide)).1,
   (cleanup_idempotent_under_cap witStore witNow DEFAULT_TTL DEFAULT_MAX_SIZE (by decide)).2.1,
   (cleanup_idempotent_under_cap witStore witNow DEFAULT_TTL DEFAULT_MAX_SIZE
      (by decide)).2.2.1⟩

/-! ## Claim C4 -/

/-- C4: with the default 24-hour TTL and the total size under the cap,
`cleanup` keeps exactly the entries with `timestamp ≥ now - 24h` (in file
order, so every younger entry survives and exactly the older ones are
removed), keeps every body file referenced by a survivor, reports the
deleted count, and updates `lastCleanup` in `.meta` to the current time
(the `.meta` stamp is written on the missing-log early return as well). -/
theorem cleanup_ttl_exact (s : StoreState) (now : Nat)
    (hcap : totalDiskSize s ≤ DEFAULT_MAX_SIZE) :
    (cleanup s now DEFAULT_TTL DEFAULT_MAX_SIZE).1.entries =
        s.entries.filter (fun e => decide (now - DEFAULT_TTL ≤ e.timestamp)) ∧
    (∀ b ∈ s.bodies,
        b.1 ∈ referencedNames (cleanup s now DEFAULT_TTL DEFAULT_MAX_SIZE).1.entries →
        b ∈ (cleanup s now DEFAULT_TTL DEFAULT_MAX_SIZE).1.bodies) ∧
    (cleanup s now DEFAULT_TTL DEFAULT_MAX_SIZE).2.deletedEntries =
        s.entries.length -
          (s.entries.filter (fun e => decide (now - DEFAULT_TTL ≤ e.timestamp))).length ∧
    (cleanup s now DEFAULT_TTL DEFAULT_MAX_SIZE).1.lastCleanup = now := by
  cases hes : s.log with
  | none =>
      have hse : s.entries = [] := by simp [StoreState.entries, hes]
      refine ⟨?_, ?_, ?_, ?_⟩
      · simp [cleanup, hes, StoreState.entries, hse]
      · intro b hb _
        simpa [cleanup, hes] using hb
      · simp [cleanup, hes, hse]
      · simp [cleanup, hes]
  | some es =>
      have hsized : cleanupSized s now DEFAULT_TTL DEFAULT_MAX_SIZE =
          (s.entries.filter (fun e => decide (now - DEFAULT_TTL ≤ e.timestamp)),
           ⟨totalDiskSize s, 1⟩) := by
        simp only [cleanupSized]
        rw [if_neg]
        intro hcontra
        exact absurd hcontra.1 (not_lt.mpr hcap)
      have hent : (cleanup s now DEFAULT_TTL DEFAULT_MAX_SIZE).1.entries =
          s.entries.filter (fun e => decide (now - DEFAULT_TTL ≤ e.timestamp)) := by
        simp [cleanup, hes, hsized, StoreState.entries]
      refine ⟨hent, ?_, ?_, ?_⟩
      · intro b hb href
        have hbod : (cleanup s now DEFAULT_TTL DEFAULT_MAX_SIZE).1.bodies =
            s.bodies.filter
              (fun p => decide (p.1 ∈
                referencedNames (cleanupSized s now DEFAULT_TTL DEFAULT_MAX_SIZE).1)) := by
          simp [cleanup, hes]
        rw [hbod]
        refine List.mem_filter.mpr ⟨hb, ?_⟩
        have hent2 : (cleanupSized s now DEFAULT_TTL DEFAULT_MAX_SIZE).1 =
            (cleanup s now DEFAULT_TTL DEFAULT_MAX_SIZE).1.entries := by
          simp [cleanup, hes, StoreState.entries]
        rw [hent2]
        simpa using href
      · simp [cleanup, hes, hsized]
      · simp [cleanup, hes]

/-- C4 witness: on `witStore` (one expired, one fresh entry, total under
the cap) the TTL-exactness theorem instantiates concretely. -/
theorem cleanup_ttl_exact_witness :
    totalDiskSize witStore ≤ DEFAULT_MAX_SIZE ∧
    (cleanup witStore witNow DEFAULT_TTL DEFAULT_MAX_SIZE).1.entries =
        witStore.entries.filter (fun e => decide (witNow - DEFAULT_TTL ≤ e.timestamp)) ∧
    (cleanup witStore witNow DEFAULT_TTL DEFAULT_MAX_SIZE).1.lastCleanup = witNow :=
  ⟨by decide, (cleanup_ttl_exact witStore witNow (by decide)).1,
   (cleanup_ttl_exact witStore witNow (by decide)).2.2.2⟩

/-! ## Claim C5 -/

theorem countP_fst_eq_count (d : BodiesDir) (name : String) :
    d.countP (fun b => decide (b.1 = name)) = (d.map Prod.fst).count name := by
  induction d with
  | nil => simp
  | cons b t ih =>
      simp only [List.countP_cons, List.map_cons, List.count_cons, ih]
      by_cases h : b.1 = name
      · simp [h]
      · simp [h, Ne.symm h]

/-- C5: `storeBody` is content-addressed: storing byte-identical content of
the same kind returns the same hash both times, the second store writes
nothing, and (for a directory without duplicate file names) exactly one
file for that content exists afterwards. -/
theorem storeBody_dedup (hash : Content → String) (d : BodiesDir) (c : Content) (k : Bool)
    (hnodup : (d.map Prod.fst).Nodup) :
    (storeBody hash d c k).1 = (storeBody hash (storeBody hash d c k).2 c k).1 ∧
    (storeBody hash (storeBody hash d c k).2 c k).2 = (storeBody hash d c k).2 ∧
    ((storeBody hash d c k).2.countP (fun b => decide (b.1 = bodyFileName hash c k))) = 1 := by
  have hfst : ∀ d2 : BodiesDir, (storeBody hash d2 c k).1 = hash c := by
    intro d2
    simp only [storeBody]
    split
    all_goals split
    all_goals rfl
  have hsnd : ∀ d2 : BodiesDir, dirContains d2 (bodyFileName hash c k) = true →
      (storeBody hash d2 c k).2 = d2 := by
    intro d2 h
    simp only [storeBody, bodyFileName] at h ⊢
    simp [h]
  refine ⟨by rw [hfst, hfst], ?_, ?_⟩
  · have hmem : dirContains (storeBody hash d c k).2 (bodyFileName hash c k) = true := by
      simp only [storeBody, bodyFileName]
      split
      all_goals split
      all_goals simp_all [dirContains]
    exact hsnd _ hmem
  · by_cases h1 : dirContains d (bodyFileName hash c k) = true
    · have hd1 : (storeBody hash d c k).2 = d := by
        simp only [storeBody, bodyFileName] at h1 ⊢
        simp [h1]
      rw [hd1, countP_fst_eq_count]
      apply List.count_eq_one_of_mem hnodup
      rcases List.any_eq_true.mp h1 with ⟨b, hb, hbeq⟩
      have : b.1 = bodyFileName hash c k := by simpa using hbeq
      exact this ▸ List.mem_map_of_mem Prod.fst hb
    · have hd1 : (storeBody hash d c k).2 = d ++ [(bodyFileName hash c k, c)] := by
        simp only [storeBody, bodyFileName] at h1 ⊢
        simp [h1]
      rw [hd1, List.countP_append]
      have hzero : d.countP (fun b => decide (b.1 = bodyFileName hash c k)) = 0 := by
        rw [List.countP_eq_zero]
        intro b hb
        simp only [dirContains, bodyFileName] at h1
        rw [List.any_eq_true] at h1
        push_neg at h1
        simpa using h1 b hb
      simp [hzero]

/-- C5 witness: the dedup statement applied at a concrete empty directory
and body. -/
theorem storeBody_dedup_witness :
    ((([] : BodiesDir).map Prod.fst).Nodup) ∧
    (storeBody witHash [] [7] false).1 = (storeBody witHash (storeBody witHash [] [7] false).2 [7] false).1 ∧
    ((storeBody witHash [] [7] false).2.countP
        (fun b => decide (b.1 = bodyFileName witHash [7] false))) = 1 :=
  ⟨by decide, (storeBody_dedup witHash [] [7] false (by decide)).1,
   (storeBody_dedup witHash [] [7] false (by decide)).2.2⟩

/-! ## Claim C6 -/

/-- C6: `appendEntrySync` appends the entry's line exactly once on every
lock path: with no lock file it takes the lock; with a lock older than 5 s
it removes it and reacquires; with a non-stale lock it proceeds without
holding the lock and leaves the lock file untouched.  Lock contention never
fails the append. -/
theorem appendEntrySync_spec (st : AppendState) (line : String) (now : Nat) :
    (appendEntrySync st line now).st.lines = st.lines ++ [line] ∧
    (∀ m, st.lockMtime = some m → 5000 < now - m →
        (appendEntrySync st line now).removedStale = true ∧
        (appendEntrySync st line now).heldLock = true ∧
        (appendEntrySync st line now).st.lockMtime = none) ∧
    (∀ m, st.lockMtime = some m → ¬(5000 < now - m) →
        (appendEntrySync st line now).heldLock = false ∧
        (appendEntrySync st line now).st.lockMtime = some m) := by
  obtain ⟨lk, lines⟩ := st
  cases lk with
  | none => simp [appendEntrySync]
  | some m =>
      by_cases h : 5000 < now - m
      all_goals simp [appendEntrySync, h]
      all_goals omega

/-- C6 witness: a stale lock (age 9900 ms) is removed and reacquired; a
fresh lock (age 3000 ms) leads to an append without the lock; both append
exactly once. -/
theorem appendEntrySync_witness :
    (appendEntrySync ⟨some 100, ["x"]⟩ "y" 10000).st.lines = ["x", "y"] ∧
    (appendEntrySync ⟨some 100, ["x"]⟩ "y" 10000).removedStale = true ∧
    (appendEntrySync ⟨some 7000, []⟩ "z" 10000).heldLock = false ∧
    (appendEntrySync ⟨some 7000, []⟩ "z" 10000).st.lines = ["z"] :=
  ⟨by simpa using (appendEntrySync_spec ⟨some 100, ["x"]⟩ "y" 10000).1,
   ((appendEntrySync_spec ⟨some 100, ["x"]⟩ "y" 10000).2.1 100 rfl (by decide)).1,
   ((appendEntrySync_spec ⟨some 7000, []⟩ "z" 10000).2.2 7000 rfl (by decide)).1,
   by simpa using (appendEntrySync_spec ⟨some 7000, []⟩ "z" 10000).1⟩

/-! ## Claim C3 -/

theorem originOk_iff (g : String → Option String) (e : NetEntry) (f : Filters) :
    originOk g e f = true ↔ (∀ o, f.origin = some o → o ≠ "" → g e.url = some o) := by
  cases ho : f.origin with
  | none => simp [originOk, ho]
  | some o =>
      by_cases h : o = ""
      · subst h
        simp [originOk, ho]
      · simp [originOk, ho, h]

theorem methodOk_iff (e : NetEntry) (f : Filters) :
    methodOk e f = true ↔ (∀ m, f.method = some m → m ≠ "" → e.method = sToUpper m) := by
  cases hm : f.method with
  | none => simp [methodOk, hm]
  | some m =>
      by_cases h : m = ""
      · subst h
        simp [methodOk, hm]
      · simp [methodOk, hm, h]

theorem statusOk_iff (e : NetEntry) (f : Filters) :
    statusOk e f = true ↔
      ((∀ n, f.status = some (.num n) → e.status = n) ∧
       (∀ c, f.status = some (.str c) → sEndsWith c "xx" = true →
           sStartsWith (intToString e.status) (sTake c 1) = true) ∧
       (∀ c, f.status = some (.str c) → sEndsWith c "xx" = false →
           ∃ k, parseInt10 c = some k ∧ e.status = k)) := by
  cases hs : f.status with
  | none => simp [statusOk, hs]
  | some sf =>
      cases sf with
      | num n => simp [statusOk, hs]
      | str c =>
          cases hxx : sEndsWith c "xx" with
          | true => simp [statusOk, hs, hxx]
          | false =>
              cases hp : parseInt10 c with
              | none => simp [statusOk, hs, hxx, hp]
              | some k =>
                  simp [statusOk, hs, hxx, hp]
                  exact eq_comm

theorem typeOk_iff (e : NetEntry) (f : Filters) :
    typeOk e f = true ↔
      (∀ t, f.type = some t → t ≠ "" → containsStr (contentTypeOf e) t = true) := by
  cases ht : f.type with
  | none => simp [typeOk, ht]
  | some t =>
      by_cases h : t = ""
      · subst h
        simp [typeOk, ht]
      · simp [typeOk, ht, h]

theorem sinceOk_iff (e : NetEntry) (f : Filters) :
    sinceOk e f = true ↔ (∀ n, f.since = some n → n ≤ e.timestamp) := by
  cases hn : f.since with
  | none => simp [sinceOk, hn]
  | some n =>
      by_cases h : n = 0
      · subst h
        simp [sinceOk, hn]
      · simp [sinceOk, hn, h]

theorem hasBodyOk_iff (e : NetEntry) (f : Filters) :
    hasBodyOk e f = true ↔ (∀ b, f.hasBody = some b → hasRespBody e = b) := by
  cases hb : f.hasBody with
  | none => simp [hasBodyOk, hb]
  | some b => simp [hasBodyOk, hb, eq_comm]

theorem excludeStaticOk_iff (e : NetEntry) (f : Filters) :
    excludeStaticOk e f = true ↔
      (f.excludeStatic = true → ∀ ext ∈ staticExts, sEndsWith (urlPathLower e.url) ext = false) := by
  cases hx : f.excludeStatic with
  | false => simp [excludeStaticOk, hx]
  | true => simp [excludeStaticOk, hx, List.any_eq_false]

theorem urlPatternOk_iff (r : String → String → Option Bool) (e : NetEntry) (f : Filters) :
    urlPatternOk r e f = true ↔
      (∀ p, f.urlPattern = some p → p ≠ "" → matchesUrlPattern r e.url p = true) := by
  cases hp : f.urlPattern with
  | none => simp [urlPatternOk, hp]
  | some p =>
      by_cases h : p = ""
      · subst h
        simp [urlPatternOk, hp]
      · simp [urlPatternOk, hp, h]

/-- The early-return cascade of `matchesFilters` is exactly the conjunction
of the specification's filter clauses. -/
theorem matchesFilters_iff_claim (g : String → Option String)
    (r : String → String → Option Bool) (e : NetEntry) (f : Filters) :
    matchesFilters g r e f = true ↔ ClaimMatches g r e f := by
  simp only [matchesFilters, Bool.and_eq_true, originOk_iff, methodOk_iff, statusOk_iff,
    typeOk_iff, sinceOk_iff, hasBodyOk_iff, excludeStaticOk_iff, urlPatternOk_iff, ClaimMatches]
  tauto

theorem collectEntries_eq (g : String → Option String)
    (r : String → String → Option Bool) (f : Filters) (log : List (Option NetEntry)) :
    collectEntries g r f log = (log.filterMap id).filter (fun e => matchesFilters g r e f) := by
  induction log with
  | nil => simp [collectEntries]
  | cons h t ih =>
      cases h with
      | none => simpa [collectEntries] using ih
      | some e =>
          by_cases hm : matchesFilters g r e f = true
          · simp [collectEntries, hm, ih]
          · simp [collectEntries, hm, ih]

/-- C3: the query returns exactly the entries that pass every given filter
(conjunctively: exact origin, upper-cased method, exact status or `Nxx`
class, content-type substring, minimum timestamp, response-body presence,
static-asset exclusion, and the URL pattern with its regex/glob/substring
dispatch), with malformed lines skipped and the tail-count slice applied
after all other filters. -/
theorem readEntriesSync_spec (g : String → Option String)
    (r : String → String → Option Bool) (log : List (Option NetEntry)) (f : Filters) :
    readEntriesSync g r log f =
        applyLast f.last ((log.filterMap id).filter (fun e => matchesFilters g r e f)) ∧
    (∀ e : NetEntry, matchesFilters g r e f = true ↔ ClaimMatches g r e f) := by
  refine ⟨?_, fun e => matchesFilters_iff_claim g r e f⟩
  rw [readEntriesSync, collectEntries_eq]

/-- C3 witness: the query specification applied to a concrete log (one
matching entry, one expired-timestamp entry, one malformed line) and a
filter set exercising origin, method, status class, since, body presence,
static exclusion and URL pattern. -/
theorem readEntriesSync_witness :
    readEntriesSync witGOrigin witRTest [some witEntryOld, none, some witEntryNew] witF =
        applyLast witF.last
          (([some witEntryOld, none, some witEntryNew].filterMap id).filter
            (fun e => matchesFilters witGOrigin witRTest e witF)) ∧
    matchesFilters witGOrigin witRTest witEntryNew witF = true ∧
    ClaimMatches witGOrigin witRTest witEntryNew witF :=
  ⟨(readEntriesSync_spec witGOrigin witRTest [some witEntryOld, none, some witEntryNew] witF).1,
   by decide,
   ((readEntriesSync_spec witGOrigin witRTest [some witEntryOld, none, some witEntryNew]
       witF).2 witEntryNew).mp (by decide)⟩

/-! ## Workflow lemmas -/

theorem stringMkData (s : String) : String.mk s.data = s := rfl

theorem lookup_setVar_self (vs : Vars) (k : String) (v : JVal) :
    List.lookup k (setVar vs k v) = some v := by
  induction vs with
  | nil => simp [setVar, List.lookup]
  | cons p t ih =>
      obtain ⟨k1, v1⟩ := p
      by_cases h : k1 = k
      · subst h
        simp [setVar, List.lookup]
      · have hbeq : (k == k1) = false := beq_eq_false_iff_ne.mpr (Ne.symm h)
        simp [setVar, h, List.lookup, hbeq, ih]

theorem lookup_setVar_ne (vs : Vars) (k q : String) (v : JVal) (h : q ≠ k) :
    List.lookup q (setVar vs k v) = List.lookup q vs := by
  have hbeq : (q == k) = false := beq_eq_false_iff_ne.mpr h
  induction vs with
  | nil => simp [setVar, List.lookup, hbeq]
  | cons p t ih =>
      obtain ⟨k1, v1⟩ := p
      by_cases h1 : k1 = k
      · subst h1
        simp [setVar, List.lookup, hbeq]
      · by_cases h2 : q = k1
        · subst h2
          simp [setVar, h1, List.lookup]
        · have hbeq2 : (q == k1) = false := beq_eq_false_iff_ne.mpr h2
          simp [setVar, h1, List.lookup, hbeq2, ih]

theorem lookupVar_setVar_self (vs : Vars) (k : String) (v : JVal)
    (hv : isUndefined v = false) : lookupVar (setVar vs k v) k = some v := by
  rw [lookupVar, lookup_setVar_self]
  cases v
  all_goals simp_all [isUndefined]

theorem lookupVar_setVar_ne (vs : Vars) (k q : String) (v : JVal) (h : q ≠ k) :
    lookupVar (setVar vs k v) q = lookupVar vs q := by
  rw [lookupVar, lookup_setVar_ne vs k q v h, lookupVar]

theorem netOkB_spec {net : Net} {cmd : String} {args : JVal}
    (h : netOkB net cmd args = true) :
    ∃ resp, net cmd args = .ok resp ∧ truthy (getField resp "error") = false := by
  unfold netOkB at h
  cases hn : net cmd args with
  | error e => rw [hn] at h; simp at h
  | ok resp =>
      rw [hn] at h
      simp at h
      exact ⟨resp, rfl, h⟩

theorem executeSingleStep_ok (net : Net) (parse : JParse) (cmd : String)
    (args resp : JVal) (vars : Vars) (stop : Bool)
    (hsub : substituteVars vars args = args)
    (hn : net cmd args = .ok resp)
    (hok : truthy (getField resp "error") = false) :
    executeSingleStep net parse (mkLeaf cmd args) vars ⟨stop, false⟩ =
      (⟨true, none, none⟩, vars, [(cmd, args)]) := by
  simp [executeSingleStep, mkLeaf, WStep.cmd, WStep.args, WStep.asField, asName, hsub, hn, hok]

theorem executeStep_leaf (net : Net) (parse : JParse) (cmd : String)
    (args resp : JVal) (vars : Vars) (stop : Bool)
    (hsub : substituteVars vars args = args)
    (hn : net cmd args = .ok resp)
    (hok : truthy (getField resp "error") = false) :
    executeStep net parse (mkLeaf cmd args) vars ⟨stop, false⟩ =
      (⟨true, none, 1⟩, vars, [(cmd, args)]) := by
  have h1 := executeSingleStep_ok net parse cmd args resp vars stop hsub hn hok
  rw [mkLeaf] at h1 ⊢
  rw [executeStep, h1]

theorem execBody_leaf_ok (net : Net) (parse : JParse) (cmd : String)
    (args resp : JVal) (vars : Vars) (stop : Bool)
    (hsub : substituteVars vars args = args)
    (hn : net cmd args = .ok resp)
    (hok : truthy (getField resp "error") = false) :
    execBody net parse [mkLeaf cmd args] vars ⟨stop, false⟩ =
      (⟨false, none, 1⟩, vars, [(cmd, args)]) := by
  have h1 := executeStep_leaf net parse cmd args resp vars stop hsub hn hok
  simp only [execBody, h1]
  simp

theorem copyBackVars_leaf (cmd : String) (args : JVal) (lv vars : Vars) :
    copyBackVars [mkLeaf cmd args] lv vars = vars := by
  simp [copyBackVars, mkLeaf, WStep.repeatVal, WStep.eachVal, asName, WStep.asField]

theorem execRepeatIters_leaf (net : Net) (parse : JParse) (cmd : String)
    (args resp : JVal)
    (hsub : ∀ vs : Vars, substituteVars vs args = args)
    (hn : net cmd args = .ok resp)
    (hok : truthy (getField resp "error") = false) :
    ∀ (n i acc : Nat) (vars : Vars),
      execRepeatIters net parse n i [mkLeaf cmd args] none vars ⟨true, false⟩ acc =
        (⟨true, none, acc + n⟩, vars, List.replicate n (cmd, args)) := by
  intro n
  induction n with
  | zero =>
      intro i acc vars
      rw [execRepeatIters]
      simp
  | succ n2 ih =>
      intro i acc vars
      rw [execRepeatIters]
      rw [execBody_leaf_ok net parse cmd args resp _ true (hsub _) hn hok]
      simp only [copyBackVars_leaf]
      rw [ih]
      simp [List.replicate_succ]
      omega

theorem substEachArgs (iv : String) (lv : Vars) (item : JVal)
    (hiv1 : simpleRefName (refStr iv).data = some iv.data)
    (hl : lookupVar lv iv = some item) :
    substituteVars lv (.vObj [("url", .vStr (refStr iv))]) = .vObj [("url", item)] := by
  simp only [substituteVars, substituteFields, resolveVar, hiv1, stringMkData, hl]

theorem executeSingleStep_each (net : Net) (parse : JParse) (cmd iv : String)
    (lv : Vars) (item resp : JVal)
    (hiv1 : simpleRefName (refStr iv).data = some iv.data)
    (hl : lookupVar lv iv = some item)
    (hn : net cmd (.vObj [("url", item)]) = .ok resp)
    (hok : truthy (getField resp "error") = false) :
    executeSingleStep net parse (mkLeaf cmd (.vObj [("url", .vStr (refStr iv))])) lv
        ⟨true, false⟩ =
      (⟨true, none, none⟩, lv, [(cmd, .vObj [("url", item)])]) := by
  simp [executeSingleStep, mkLeaf, WStep.cmd, WStep.args, WStep.asField, asName,
    substEachArgs iv lv item hiv1 hl, hn, hok]

theorem execBody_each (net : Net) (parse : JParse) (cmd iv : String)
    (lv : Vars) (item resp : JVal)
    (hiv1 : simpleRefName (refStr iv).data = some iv.data)
    (hl : lookupVar lv iv = some item)
    (hn : net cmd (.vObj [("url", item)]) = .ok resp)
    (hok : truthy (getField resp "error") = false) :
    execBody net parse [mkLeaf cmd (.vObj [("url", .vStr (refStr iv))])] lv ⟨true, false⟩ =
      (⟨false, none, 1⟩, lv, [(cmd, .vObj [("url", item)])]) := by
  have h1 := executeSingleStep_each net parse cmd iv lv item resp hiv1 hl hn hok
  have h2 : executeStep net parse (mkLeaf cmd (.vObj [("url", .vStr (refStr iv))])) lv
      ⟨true, false⟩ = (⟨true, none, 1⟩, lv, [(cmd, .vObj [("url", item)])]) := by
    rw [mkLeaf] at h1 ⊢
    rw [executeStep, h1]
  simp only [execBody, h2]
  simp

theorem execEachIters_leaf (net : Net) (parse : JParse) (cmd iv : String)
    (hiv1 : simpleRefName (refStr iv).data = some iv.data)
    (hiv2 : iv ≠ "_index") (hiv3 : iv ≠ "_iteration") :
    ∀ (items : List JVal) (i acc : Nat) (vars : Vars),
      (∀ v ∈ items, isUndefined v = false) →
      (∀ v ∈ items, netOkB net cmd (.vObj [("url", v)]) = true) →
      execEachIters net parse items i [mkLeaf cmd (.vObj [("url", .vStr (refStr iv))])] iv
          vars ⟨true, false⟩ acc =
        (⟨true, none, acc + items.length⟩, vars,
         items.map (fun v => (cmd, .vObj [("url", v)]))) := by
  intro items
  induction items with
  | nil =>
      intro i acc vars h1 h2
      rw [execEachIters]
      simp
  | cons item rest ih =>
      intro i acc vars h1 h2
      obtain ⟨resp, hn, hok⟩ := netOkB_spec (h2 item (List.mem_cons_self item rest))
      have hl : lookupVar
          (setVar (setVar (setVar vars iv item) "_index" (.vNum (i : Int)))
            "_iteration" (.vNum ((i : Int) + 1))) iv = some item := by
        rw [lookupVar_setVar_ne _ _ _ _ hiv3, lookupVar_setVar_ne _ _ _ _ hiv2,
            lookupVar_setVar_self _ _ _ (h1 item (List.mem_cons_self item rest))]
      rw [execEachIters]
      rw [execBody_each net parse cmd iv _ item resp hiv1 hl hn hok]
      simp only [copyBackVars_leaf]
      rw [ih (i + 1) (acc + 1) vars
        (fun v hv => h1 v (List.mem_cons_of_mem _ hv))
        (fun v hv => h2 v (List.mem_cons_of_mem _ hv))]
      simp
      omega

theorem executeStep_leaf_fail (net : Net) (parse : JParse) (cmd : String)
    (args : JVal) (msg : String) (vars : Vars) (opts : ExecOptions)
    (hsub : substituteVars vars args = args)
    (hn : net cmd args = .error msg) :
    executeStep net parse (mkLeaf cmd args) vars opts =
      (⟨false, some msg, 1⟩, vars, [(cmd, args)]) := by
  rw [mkLeaf, executeStep]
  simp [executeSingleStep, WStep.cmd, WStep.args, hsub, hn]

theorem takeWhile_word_append (l : List Char) (x : Char)
    (hl : ∀ c ∈ l, isWordChar c = true) (hx : isWordChar x = false) :
    (l ++ [x]).takeWhile isWordChar = l ∧ (l ++ [x]).dropWhile isWordChar = [x] := by
  induction l with
  | nil => simp [List.takeWhile, List.dropWhile, hx]
  | cons c t ih =>
      have hc : isWordChar c = true := hl c (List.mem_cons_self c t)
      have ht : ∀ c2 ∈ t, isWordChar c2 = true := fun c2 h2 => hl c2 (List.mem_cons_of_mem _ h2)
      simp [List.takeWhile_cons, List.dropWhile_cons, hc, (ih ht).1, (ih ht).2]

theorem simpleRefName_refStr (nm : String) (h1 : nm.data ≠ [])
    (h2 : ∀ c ∈ nm.data, isWordChar c = true) :
    simpleRefName (refStr nm).data = some nm.data := by
  have hdata : (refStr nm).data = '%' :: lbrace :: (nm.data ++ [rbrace]) := by
    simp [refStr, String.data_append, String.singleton]
  rw [hdata]
  have hw := takeWhile_word_append nm.data rbrace h2 (by decide)
  simp [simpleRefName, hw.1, hw.2, h1]

/-! ## Claim C7 -/

/-- C7: a `repeat N` loop over a single-leaf body executes the body exactly
`min N 100` times, issuing exactly that many tool requests; an `each` loop
over an array of length `L` executes the body once per element in array
order for exactly `min L 100` elements, binding each element to the
variable named by `as` (the issued requests carry the bound element), with
the binding variable defaulting to `item` when `as` is absent; and in
particular a `repeat` of 200 runs exactly 100 iterations. -/
theorem loop_cap_spec (net : Net) (parse : JParse) (cmd iv : String) (args : JVal)
    (items : List JVal) (vars : Vars)
    (hsub : ∀ vs : Vars, substituteVars vs args = args)
    (hok : netOkB net cmd args = true)
    (hiv0 : iv ≠ "")
    (hiv1 : simpleRefName (refStr iv).data = some iv.data)
    (hiv2 : iv ≠ "_index") (hiv3 : iv ≠ "_iteration")
    (hitems : ∀ v ∈ items, isUndefined v = false)
    (hnet2 : ∀ v ∈ items, netOkB net cmd (.vObj [("url", v)]) = true) :
    (∀ N : Nat,
      executeStep net parse
          (.mk (some (.vNum (N : Int))) none [mkLeaf cmd args] none "" (.vObj []) none)
          vars ⟨true, false⟩ =
        (⟨true, none, min N 100⟩, vars, List.replicate (min N 100) (cmd, args))) ∧
    (executeStep net parse
        (.mk none (some (.vArr items)) [mkLeaf cmd (.vObj [("url", .vStr (refStr iv))])]
          none "" (.vObj []) (some iv))
        vars ⟨true, false⟩ =
      (⟨true, none, min items.length 100⟩, vars,
       (items.take (min items.length 100)).map (fun v => (cmd, .vObj [("url", v)])))) ∧
    (executeStep net parse
        (.mk none (some (.vArr items)) [mkLeaf cmd (.vObj [("url", .vStr (refStr "item"))])]
          none "" (.vObj []) none)
        vars ⟨true, false⟩ =
      (⟨true, none, min items.length 100⟩, vars,
       (items.take (min items.length 100)).map (fun v => (cmd, .vObj [("url", v)])))) ∧
    (executeStep net parse
        (.mk (some (.vNum 200)) none [mkLeaf cmd args] none "" (.vObj []) none)
        vars ⟨true, false⟩).1.stepsExecuted = 100 := by
  obtain ⟨resp, hn, hokr⟩ := netOkB_spec hok
  have hrep : ∀ N : Nat,
      executeStep net parse
          (.mk (some (.vNum (N : Int))) none [mkLeaf cmd args] none "" (.vObj []) none)
          vars ⟨true, false⟩ =
        (⟨true, none, min N 100⟩, vars, List.replicate (min N 100) (cmd, args)) := by
    intro N
    rw [executeStep]
    have htonat : (min ((N : Int)) MAX_LOOP_ITERATIONS).toNat = min N 100 := by
      simp [MAX_LOOP_ITERATIONS]
      omega
    simp only [resolveVar, htonat]
    rw [if_neg (by simp [mkLeaf])]
    rw [execRepeatIters_leaf net parse cmd args resp hsub hn hokr (min N 100) 0 0 vars]
    simp
  refine ⟨hrep, ?_, ?_, ?_⟩
  · rw [executeStep]
    simp only [resolveVar]
    rw [if_neg (by simp [mkLeaf])]
    rw [if_neg hiv0]
    rw [execEachIters_leaf net parse cmd iv hiv1 hiv2 hiv3
      (items.take (min items.length 100)) 0 0 vars
      (fun v hv => hitems v (List.take_subset _ _ hv))
      (fun v hv => hnet2 v (List.take_subset _ _ hv))]
    simp [List.length_take]
  · rw [executeStep]
    simp only [resolveVar]
    rw [if_neg (by simp [mkLeaf])]
    rw [execEachIters_leaf net parse cmd "item" (by decide) (by decide) (by decide)
      (items.take (min items.length 100)) 0 0 vars
      (fun v hv => hitems v (List.take_subset _ _ hv))
      (fun v hv => hnet2 v (List.take_subset _ _ hv))]
    simp [List.length_take]
  · have h200 := hrep 200
    norm_num at h200
    rw [h200]

/-- C7 witness: the loop-cap specification instantiated at a concrete
backend, a `repeat` of 200 and an `each` over a three-element array. -/
theorem loop_cap_witness :
    executeStep netOkEmpty parseNone
        (.mk (some (.vNum 200)) none [mkLeaf "go" (.vObj [])] none "" (.vObj []) none)
        [] ⟨true, false⟩ =
      (⟨true, none, 100⟩, [], List.replicate 100 ("go", .vObj [])) ∧
    executeStep netOkEmpty parseNone
        (.mk none (some (.vArr [.vStr "a", .vStr "b", .vStr "c"]))
          [mkLeaf "go" (.vObj [("url", .vStr (refStr "u"))])] none "" (.vObj []) (some "u"))
        [] ⟨true, false⟩ =
      (⟨true, none, 3⟩, [],
       [("go", .vObj [("url", .vStr "a")]), ("go", .vObj [("url", .vStr "b")]),
        ("go", .vObj [("url", .vStr "c")])]) := by
  have h := loop_cap_spec netOkEmpty parseNone "go" "u" (.vObj [])
      [.vStr "a", .vStr "b", .vStr "c"] []
      (fun vs => by simp [substituteVars, substituteFields])
      (by decide) (by decide) (by decide) (by decide) (by decide)
      (by decide) (by decide)
  refine ⟨?_, ?_⟩
  · have h1 := h.1 200
    simpa using h1
  · have h2 := h.2.1
    simpa using h2

/-! ## Claim C8 -/

/-- C8: for a leaf step whose command is in the auto-wait set, a successful
execution issues exactly one follow-up wait request (`wait.load` for
navigation-class commands, `wait.dom` for mutation-class ones, including
dot-suffixed forms); the conclusion holds for every backend, in particular
for backends on which the wait request throws or returns an error, so an
auto-wait failure cannot change the step's success; and a failing leaf step
stops or continues the surrounding body according to the `onError`
policy. -/
theorem auto_wait_spec :
    (∀ (net : Net) (parse : JParse) (cmd w : String) (args resp : JVal) (vars : Vars),
        (∀ vs : Vars, substituteVars vs args = args) →
        getAutoWaitCommand cmd = some w →
        net cmd args = .ok resp →
        truthy (getField resp "error") = false →
        executeSingleStep net parse (mkLeaf cmd args) vars ⟨true, true⟩ =
          (⟨true, none, none⟩, vars, [(cmd, args), (w, waitArgsFor w)])) ∧
    (getAutoWaitCommand "go" = some "wait.load" ∧
     getAutoWaitCommand "navigate" = some "wait.load" ∧
     getAutoWaitCommand "submit" = some "wait.load" ∧
     getAutoWaitCommand "tab.switch" = some "wait.load" ∧
     getAutoWaitCommand "tab.new" = some "wait.load" ∧
     getAutoWaitCommand "back" = some "wait.load" ∧
     getAutoWaitCommand "forward" = some "wait.load" ∧
     getAutoWaitCommand "click" = some "wait.dom" ∧
     getAutoWaitCommand "key" = some "wait.dom" ∧
     getAutoWaitCommand "form.fill" = some "wait.dom" ∧
     getAutoWaitCommand "click.right" = some "wait.dom" ∧
     getAutoWaitCommand "tab.new.background" = some "wait.load" ∧
     getAutoWaitCommand "type" = none) ∧
    (∀ (net : Net) (parse : JParse) (c1 c2 : String) (a1 a2 resp2 : JVal) (vars : Vars)
        (msg : String),
        (∀ vs : Vars, substituteVars vs a1 = a1) →
        (∀ vs : Vars, substituteVars vs a2 = a2) →
        net c1 a1 = .error msg →
        net c2 a2 = .ok resp2 →
        truthy (getField resp2 "error") = false →
        (execBody net parse [mkLeaf c1 a1, mkLeaf c2 a2] vars ⟨true, false⟩ =
            (⟨true, some msg, 1⟩, vars, [(c1, a1)]) ∧
         execBody net parse [mkLeaf c1 a1, mkLeaf c2 a2] vars ⟨false, false⟩ =
            (⟨false, none, 2⟩, vars, [(c1, a1), (c2, a2)]))) := by
  refine ⟨?_, by decide, ?_⟩
  · intro net parse cmd w args resp vars hsub hw hn hok
    simp [executeSingleStep, mkLeaf, WStep.cmd, WStep.args, WStep.asField, asName,
      hsub vars, hn, hok, hw]
  · intro net parse c1 c2 a1 a2 resp2 vars msg hsub1 hsub2 hfail hn2 hok2
    constructor
    · simp only [execBody,
        executeStep_leaf_fail net parse c1 a1 msg vars ⟨true, false⟩ (hsub1 vars) hfail]
      simp
    · have h2 := executeStep_leaf net parse c2 a2 resp2 vars false (hsub2 vars) hn2 hok2
      simp only [execBody,
        executeStep_leaf_fail net parse c1 a1 msg vars ⟨false, false⟩ (hsub1 vars) hfail, h2]
      simp

/-- C8 witness: a `go` step against a backend whose `wait.load` always
throws still succeeds and issues exactly the leaf request plus one
`wait.load`; and a failing `bad` step stops the body under `stop` but the
following `go` still runs under `continue`. -/
theorem auto_wait_witness :
    executeSingleStep netFailWait parseNone (mkLeaf "go" (.vObj [])) [] ⟨true, true⟩ =
      (⟨true, none, none⟩, [], [("go", .vObj []), ("wait.load", waitArgsFor "wait.load")]) ∧
    execBody netFailBad parseNone [mkLeaf "bad" (.vObj []), mkLeaf "go" (.vObj [])] []
        ⟨true, false⟩ =
      (⟨true, some "boom", 1⟩, [], [("bad", .vObj [])]) ∧
    execBody netFailBad parseNone [mkLeaf "bad" (.vObj []), mkLeaf "go" (.vObj [])] []
        ⟨false, false⟩ =
      (⟨false, none, 2⟩, [], [("bad", .vObj []), ("go", .vObj [])]) := by
  have hsub : ∀ vs : Vars, substituteVars vs (.vObj []) = .vObj [] :=
    fun vs => by simp [substituteVars, substituteFields]
  have h1 := auto_wait_spec.1 netFailWait parseNone "go" "wait.load" (.vObj []) (.vObj []) []
    hsub (by decide) rfl (by decide)
  have h3 := auto_wait_spec.2.2 netFailBad parseNone "bad" "go" (.vObj []) (.vObj [])
    (.vObj []) [] "boom" hsub hsub rfl rfl (by decide)
  exact ⟨h1, h3.1, h3.2⟩

/-! ## Claim C9 -/

/-- C9 counterexample: a reply with a `result` but no text content part is
captured as the `result` object, not as the whole reply object the claim
predicts. -/
theorem extract_counterexample :
    extractStepOutput parseNone respNoText = .vObj [("ok", .vBool true)] ∧
    extractStepOutput parseNone respNoText ≠ respNoText := by
  refine ⟨rfl, ?_⟩
  rw [show extractStepOutput parseNone respNoText = .vObj [("ok", .vBool true)] from rfl]
  simp [respNoText]

/-- C9 (amended): if the reply's first content part carries a non-empty
text, the JSON-parsed value is captured when the text parses and the raw
text otherwise; with no such text, the reply's `value` field is captured
when defined, else the reply's `result` field when defined, else the whole
reply object. -/
theorem extractStepOutput_spec (parse : JParse) (resp : JVal) :
    (∀ s v, textOf resp = .vStr s → s ≠ "" → parse s = some v →
        extractStepOutput parse resp = v) ∧
    (∀ s, textOf resp = .vStr s → s ≠ "" → parse s = none →
        extractStepOutput parse resp = .vStr s) ∧
    ((∀ s, textOf resp = .vStr s → s = "") →
      ((isUndefined (getField resp "value") = false →
          extractStepOutput parse resp = getField resp "value") ∧
       (isUndefined (getField resp "value") = true →
          isUndefined (getField resp "result") = false →
          extractStepOutput parse resp = getField resp "result") ∧
       (isUndefined (getField resp "value") = true →
          isUndefined (getField resp "result") = true →
          extractStepOutput parse resp = resp))) := by
  refine ⟨?_, ?_, ?_⟩
  · intro s v ht hs hp
    simp [extractStepOutput, ht, hs, hp]
  · intro s ht hs hp
    simp [extractStepOutput, ht, hs, hp]
  · intro hno
    have hfb : extractStepOutput parse resp = extractFallback resp := by
      cases ht : textOf resp with
      | vStr s =>
          have hs : s = "" := hno s ht
          subst hs
          simp [extractStepOutput, ht]
      | vNull => simp [extractStepOutput, ht]
      | vUndefined => simp [extractStepOutput, ht]
      | vBool b => simp [extractStepOutput, ht]
      | vNum n => simp [extractStepOutput, ht]
      | vArr xs => simp [extractStepOutput, ht]
      | vObj fs => simp [extractStepOutput, ht]
    refine ⟨?_, ?_, ?_⟩
    · intro hv
      rw [hfb]
      simp [extractFallback, hv]
    · intro hv hr
      rw [hfb]
      simp [extractFallback, hv, hr]
    · intro hv hr
      rw [hfb]
      simp [extractFallback, hv, hr]

/-- C9 witness: the amended extraction rules applied to a reply with text
`[1]` (parsed by `parseArr1`, raw under `parseNone`) and to the textless
`respNoText`. -/
theorem extractStepOutput_witness :
    extractStepOutput parseArr1 respText = .vArr [.vNum 1] ∧
    extractStepOutput parseNone respText = .vStr "[1]" ∧
    extractStepOutput parseNone respNoText = getField respNoText "result" :=
  ⟨(extractStepOutput_spec parseArr1 respText).1 "[1]" (.vArr [.vNum 1]) rfl
      (by decide) rfl,
   (extractStepOutput_spec parseNone respText).2.1 "[1]" rfl (by decide) rfl,
   (((extractStepOutput_spec parseNone respNoText).2.2 (fun s h => by
        rw [show textOf respNoText = JVal.vUndefined from rfl] at h
        cases h)).2.1 rfl rfl)⟩

/-! ## Claim C10 -/

/-- C10: a `repeat` loop whose repeat value resolves to something that is
not a number (or whose string parses to NaN) executes its body exactly once
rather than zero times or failing; and a string argument that is exactly
one `%` `lbrace` name `rbrace` variable reference resolves to the
variable's value with its original type, while a reference to an undefined
variable is left verbatim. -/
theorem repeat_nonnum_and_ref_spec :
    (∀ (net : Net) (parse : JParse) (cmd : String) (args resp rv : JVal) (vars : Vars),
        (∀ vs : Vars, substituteVars vs args = args) →
        net cmd args = .ok resp →
        truthy (getField resp "error") = false →
        (match resolveVar rv vars with
         | .vNum _ => False
         | .vStr s => parseInt10 s = none
         | _ => True) →
        executeStep net parse (.mk (some rv) none [mkLeaf cmd args] none "" (.vObj []) none)
            vars ⟨true, false⟩ =
          (⟨true, none, 1⟩, vars, [(cmd, args)])) ∧
    (∀ (vars : Vars) (nm : String) (v : JVal),
        nm.data ≠ [] → (∀ c ∈ nm.data, isWordChar c = true) →
        ((lookupVar vars nm = some v → resolveVar (.vStr (refStr nm)) vars = v) ∧
         (lookupVar vars nm = none →
            resolveVar (.vStr (refStr nm)) vars = .vStr (refStr nm)))) := by
  constructor
  · intro net parse cmd args resp rv vars hsub hn hok hr
    rw [executeStep]
    have hone : ∀ k : Int, k = 1 →
        (min k MAX_LOOP_ITERATIONS).toNat = 1 := by
      intro k hk
      subst hk
      decide
    cases hcase : resolveVar rv vars with
    | vNum n =>
        rw [hcase] at hr
        exact absurd hr (by simp)
    | vStr s =>
        rw [hcase] at hr
        simp only [hcase, hr]
        rw [if_neg (by simp [mkLeaf])]
        rw [show (min ((Option.getD (none : Option Int) 1)) MAX_LOOP_ITERATIONS).toNat = 1
          from by decide]
        rw [execRepeatIters_leaf net parse cmd args resp hsub hn hok 1 0 0 vars]
        simp
    | vNull =>
        simp only [hcase]
        rw [if_neg (by simp [mkLeaf]),
          show (min (1 : Int) MAX_LOOP_ITERATIONS).toNat = 1 from by decide,
          execRepeatIters_leaf net parse cmd args resp hsub hn hok 1 0 0 vars]
        simp
    | vUndefined =>
        simp only [hcase]
        rw [if_neg (by simp [mkLeaf]),
          show (min (1 : Int) MAX_LOOP_ITERATIONS).toNat = 1 from by decide,
          execRepeatIters_leaf net parse cmd args resp hsub hn hok 1 0 0 vars]
        simp
    | vBool b =>
        simp only [hcase]
        rw [if_neg (by simp [mkLeaf]),
          show (min (1 : Int) MAX_LOOP_ITERATIONS).toNat = 1 from by decide,
          execRepeatIters_leaf net parse cmd args resp hsub hn hok 1 0 0 vars]
        simp
    | vArr xs =>
        simp only [hcase]
        rw [if_neg (by simp [mkLeaf]),
          show (min (1 : Int) MAX_LOOP_ITERATIONS).toNat = 1 from by decide,
          execRepeatIters_leaf net parse cmd args resp hsub hn hok 1 0 0 vars]
        simp
    | vObj fs =>
        simp only [hcase]
        rw [if_neg (by simp [mkLeaf]),
          show (min (1 : Int) MAX_LOOP_ITERATIONS).toNat = 1 from by decide,
          execRepeatIters_leaf net parse cmd args resp hsub hn hok 1 0 0 vars]
        simp
  · intro vars nm v h1 h2
    have hs := simpleRefName_refStr nm h1 h2
    constructor
    · intro hl
      simp [resolveVar, hs, stringMkData, hl]
    · intro hl
      simp [resolveVar, hs, stringMkData, hl]

/-- C10 witness: a repeat value resolving to an array runs the body once,
and the `%` `lbrace` u `rbrace` reference preserves an array value while an
undefined reference stays verbatim. -/
theorem repeat_nonnum_and_ref_witness :
    executeStep netOkEmpty parseNone
        (.mk (some (.vArr [])) none [mkLeaf "go" (.vObj [])] none "" (.vObj []) none)
        [] ⟨true, false⟩ =
      (⟨true, none, 1⟩, [], [("go", .vObj [])]) ∧
    resolveVar (.vStr (refStr "u")) [("u", .vArr [.vNum 1])] = .vArr [.vNum 1] ∧
    resolveVar (.vStr (refStr "u")) [] = .vStr (refStr "u") := by
  refine ⟨?_, ?_, ?_⟩
  · exact (repeat_nonnum_and_ref_spec).1 netOkEmpty parseNone "go" (.vObj []) (.vObj [])
      (.vArr []) [] (fun vs => by simp [substituteVars, substituteFields]) rfl
      (by decide) trivial
  · exact ((repeat_nonnum_and_ref_spec).2 [("u", .vArr [.vNum 1])] "u" (.vArr [.vNum 1])
      (by decide) (by decide)).1 rfl
  · exact ((repeat_nonnum_and_ref_spec).2 [] "u" (.vArr [.vNum 1])
      (by decide) (by decide)).2 rfl
